import Mathlib

/-!
Shallow embedding of the commission-distribution and leaderboard-aggregation
engine of the YJ backend (Express/Mongoose).  The data model follows the
Mongoose schemas (`User`, `Request`, `Withdraw`, `UpgradeRequest`,
`Transaction`, `DailyStat`/`WeeklyStat`/`MonthlyStat`) and the operations
follow the controllers (`requestController.js`, `withdrawController.js`,
the upgrade-request controller) and the cron job (`leaderboardJob.js`).

Conventions of the embedding:
* Mongo `ObjectId`s become `Nat`.
* Monetary amounts become `Int` (the source uses JS numbers; all engine
  amounts are integers).
* `createdAt` timestamps and stat anchor `date`s become `Int`, measured in
  whole UTC days, which is the granularity at which the aggregation job
  draws its window boundaries (`Date.UTC(y, m, d)`).
* A Mongoose document write (`doc.save()` / `Model.create`) becomes a
  read-update function `DB → DB` on the database state; Mongoose only
  writes modified paths, which a read-update function models exactly.
* A Mongoose client session (`startSession`/`commitTransaction`/
  `abortTransaction`) becomes a pair of database states: the durable one
  and the in-transaction view.  Writes routed through a session touch the
  view only; only `commitTransaction` publishes it.
-/

/-- The three plans of `PLAN_PRICING` / `PLAN_HIERARCHY`
(`requestController.js`). -/
inductive Plan
  | knowic
  | learnic
  | masteric
deriving DecidableEq, BEq, Repr

/-- `type` enum of the `Transaction` schema. -/
inductive TxType
  | direct
  | passive
  | withdrawal
deriving DecidableEq, Repr

/-- `status` enum of the `User` schema. -/
inductive UserStatus
  | pending
  | active
deriving DecidableEq, Repr

/-- `status` enum of the `Request` schema. -/
inductive ReqStatus
  | pending
  | approved
  | rejected
deriving DecidableEq, Repr

/-- `status` enum of the `Withdraw` schema. -/
inductive WStatus
  | pending
  | approved
  | rejected
deriving DecidableEq, Repr

/-- `status` enum of the live `UpgradeRequest` schema
(`created`/`user_approved`/`approved`/`rejected`). -/
inductive UStatus
  | created
  | user_approved
  | approved
  | rejected
deriving DecidableEq, Repr

/-- `Transaction` schema: owner, kind, positive magnitude, created timestamp. -/
structure Transaction where
  user_id : Nat
  type : TxType
  amount : Int
  createdAt : Int
deriving DecidableEq, Repr

/-- `User` schema, restricted to the fields the engine reads or writes. -/
structure User where
  id : Nat
  balance : Int
  direct_income : Int
  passive_income : Int
  referral_of : Option Nat
  status : UserStatus
  plan : Option Plan
deriving DecidableEq, Repr

/-- `Request` schema (plan-activation request). -/
structure Request where
  id : Nat
  user_id : Nat
  sender_id : Nat
  plan : Plan
  status : ReqStatus
deriving DecidableEq, Repr

/-- `Withdraw` schema. -/
structure Withdraw where
  id : Nat
  user_id : Nat
  bankName : String
  bankAccountNumber : String
  amount : Int
  status : WStatus
deriving DecidableEq, Repr

/-- Live `UpgradeRequest` schema (the revision with `new_referrer_id`). -/
structure UpgradeRequest where
  id : Nat
  user_id : Nat
  previous_plan : Plan
  new_plan : Plan
  new_referrer_id : Nat
  discounted : Bool
  status : UStatus
deriving DecidableEq, Repr

/-- The collections the engine touches. -/
structure DB where
  users : List User
  requests : List Request
  withdraws : List Withdraw
  upgradeRequests : List UpgradeRequest
  transactions : List Transaction
deriving DecidableEq, Repr

/-- `User.findById`. -/
def findUser (db : DB) (uid : Nat) : Option User :=
  db.users.find? (fun u => u.id == uid)

/-- `Request.findById`. -/
def findRequest (db : DB) (rid : Nat) : Option Request :=
  db.requests.find? (fun r => r.id == rid)

/-- `Withdraw.findById`. -/
def findWithdraw (db : DB) (wid : Nat) : Option Withdraw :=
  db.withdraws.find? (fun w => w.id == wid)

/-- `UpgradeRequest.findById`. -/
def findUpgradeRequest (db : DB) (uid : Nat) : Option UpgradeRequest :=
  db.upgradeRequests.find? (fun r => r.id == uid)

/-- `user.save()` after mutating fields of the user document `uid`:
writes the modified paths of every document with that id. -/
def updateUser (users : List User) (uid : Nat) (f : User → User) : List User :=
  users.map (fun u => if u.id = uid then f u else u)

/-- Commission table `PLAN_PRICING` of `requestController.js`. -/
structure Pricing where
  price : Int
  direct : Int
  passive : Int
deriving DecidableEq, Repr

def PLAN_PRICING : Plan → Pricing
  | .knowic => ⟨24, 16, 2⟩
  | .learnic => ⟨59, 40, 4⟩
  | .masteric => ⟨130, 85, 7⟩

/-- `PLAN_HIERARCHY` of `requestController.js`: the plans a sponsor of the
given plan may refer. -/
def PLAN_HIERARCHY : Plan → List Plan
  | .knowic => [.knowic]
  | .learnic => [.knowic, .learnic]
  | .masteric => [.knowic, .learnic, .masteric]

/-- `PLAN_HIERARCHY[sender.plan].includes(plan)`. -/
def planAllowed (sponsorPlan reqPlan : Plan) : Bool :=
  (PLAN_HIERARCHY sponsorPlan).contains reqPlan

/-- Modelled from the spec: the rank of a plan tier (tier-1 `knowic`,
tier-2 `learnic`, tier-3 `masteric`), used to compare the code's
`PLAN_HIERARCHY` membership test against the spec's sentence
"each plan tier may only sponsor accounts requesting a tier less than or
equal to its own". -/
def specPlanTier : Plan → Nat
  | .knowic => 1
  | .learnic => 2
  | .masteric => 3

/-! ### Mongoose client sessions

`approveRequest` and `approveWithdrawal` run their writes inside
`mongoose.startSession()` / `session.startTransaction()`; the writes become
durable only at `session.commitTransaction()`, and `abortTransaction` (the
error path) discards them.  `approveUpgradeRequest` performs bare writes with
no session. -/

/-- A client session: the durable database plus the in-transaction view. -/
structure Session where
  durable : DB
  view : DB

/-- `mongoose.startSession()`: the view starts at the durable state. -/
def startSession (db : DB) : Session :=
  ⟨db, db⟩

/-- A document write issued with `{ session }`: it changes the
in-transaction view, not the durable state. -/
def sessionWrite (s : Session) (f : DB → DB) : Session :=
  ⟨s.durable, f s.view⟩

/-- `session.commitTransaction()`: the view becomes durable. -/
def commitTransaction (s : Session) : DB :=
  s.view

/-- Apply a list of document writes directly (no session), in order. -/
def applyWrites (db : DB) (ws : List (DB → DB)) : DB :=
  ws.foldl (fun s f => f s) db

/-- Durable state when the process dies after the first `k` writes of a
sequence that is routed through a session (pre-commit). -/
def sessionCrashAfter (db : DB) (ws : List (DB → DB)) (k : Nat) : DB :=
  ((ws.take k).foldl sessionWrite (startSession db)).durable

/-- Durable state when the process dies after the first `k` writes of a
sequence that is not routed through a session. -/
def bareCrashAfter (db : DB) (ws : List (DB → DB)) (k : Nat) : DB :=
  applyWrites db (ws.take k)

/-! ### Withdrawal engine (`withdrawController.js`) -/

/-- The distinct error responses of `createWithdrawal`. -/
inductive CreateWithdrawalError
  /-- 400 "Please provide bank name, account number, and amount" -/
  | missingFields
  /-- 400 "Withdrawal amount must be at least 30" -/
  | amountBelowMinimum
  /-- 404 "User not found" -/
  | userNotFound
  /-- 400 "Insufficient passive income balance" -/
  | insufficientPassiveIncome
  /-- 400 "You already have a pending withdrawal request" -/
  | pendingWithdrawalExists
deriving DecidableEq, Repr

/-- JS falsiness of an optional string field from `req.body`. -/
def falsyStr : Option String → Bool
  | none => true
  | some s => s == ""

/-- JS falsiness of an optional numeric field from `req.body`. -/
def falsyNum : Option Int → Bool
  | none => true
  | some n => n == 0

/-- `exports.createWithdrawal`: validates the body, the user's passive
income and the absence of another pending withdrawal, then persists a new
pending `Withdraw` document.  No session is involved and no balance field
changes. -/
def createWithdrawal (db : DB) (userId : Nat)
    (bankName bankAccountNumber : Option String) (amount : Option Int)
    (newId : Nat) : Except CreateWithdrawalError DB :=
  if falsyStr bankName || falsyStr bankAccountNumber || falsyNum amount then
    .error .missingFields
  else
    match amount, bankName, bankAccountNumber with
    | some a, some bn, some ban =>
      if a < 30 then .error .amountBelowMinimum
      else
        match findUser db userId with
        | none => .error .userNotFound
        | some user =>
          if user.passive_income < a then .error .insufficientPassiveIncome
          else if db.withdraws.any
              (fun w => w.user_id == userId && w.status == .pending) then
            .error .pendingWithdrawalExists
          else
            .ok { db with withdraws :=
              db.withdraws ++ [⟨newId, userId, bn, ban, a, .pending⟩] }
    | _, _, _ => .error .missingFields

/-- The distinct error responses of `approveWithdrawal`. -/
inductive ApproveWithdrawalError
  /-- 404 "Withdrawal not found" -/
  | withdrawalNotFound
  /-- 400 "Withdrawal has already been processed" -/
  | alreadyProcessed
  /-- 404 "User not found" -/
  | userNotFound
  /-- 400 "User has insufficient passive income" -/
  | insufficientPassiveIncome
deriving DecidableEq, Repr

instance {ε α : Type} [DecidableEq ε] [DecidableEq α] :
    DecidableEq (Except ε α) := fun x y =>
  match x, y with
  | .ok a, .ok b =>
    if h : a = b then .isTrue (by rw [h])
    else .isFalse (by intro he; cases he; exact h rfl)
  | .error a, .error b =>
    if h : a = b then .isTrue (by rw [h])
    else .isFalse (by intro he; cases he; exact h rfl)
  | .ok _, .error _ => .isFalse (by intro he; cases he)
  | .error _, .ok _ => .isFalse (by intro he; cases he)

/-- The validation phase of `exports.approveWithdrawal` (everything before
the first write); on failure the session is aborted with the durable state
untouched. -/
def approveWithdrawalCheck (db : DB) (wid : Nat) :
    Except ApproveWithdrawalError (Withdraw × User) :=
  match findWithdraw db wid with
  | none => .error .withdrawalNotFound
  | some w =>
    if w.status ≠ .pending then .error .alreadyProcessed
    else
      match findUser db w.user_id with
      | none => .error .userNotFound
      | some user =>
        if user.passive_income < w.amount then
          .error .insufficientPassiveIncome
        else .ok (w, user)

/-- `withdrawal.status = 'approved'; withdrawal.save()`. -/
def markWithdrawApproved (wid : Nat) (db : DB) : DB :=
  let ws := db.withdraws.map
    (fun x => if x.id = wid then { x with status := WStatus.approved } else x)
  { db with withdraws := ws }

/-- `user.passive_income -= withdrawal.amount; user.save()` — note that the
`balance` field is not touched by this write. -/
def debitPassiveIncome (uid : Nat) (amount : Int) (db : DB) : DB :=
  let us := updateUser db.users uid
    (fun u => { u with passive_income := u.passive_income - amount })
  { db with users := us }

/-- `Transaction.create({ user_id, type, amount })`. -/
def appendTx (uid : Nat) (k : TxType) (amount : Int) (now : Int)
    (db : DB) : DB :=
  { db with transactions := db.transactions ++ [⟨uid, k, amount, now⟩] }

/-- The three session writes of `approveWithdrawal`, in source order:
mark the withdrawal approved, deduct the amount from the user's
`passive_income`, append a `withdrawal` transaction. -/
def approveWithdrawalWriteList (w : Withdraw) (now : Int) :
    List (DB → DB) :=
  [markWithdrawApproved w.id,
   debitPassiveIncome w.user_id w.amount,
   appendTx w.user_id .withdrawal w.amount now]

/-- `exports.approveWithdrawal`: validation, then the three writes inside
one session, then commit. -/
def approveWithdrawal (db : DB) (wid : Nat) (now : Int) :
    Except ApproveWithdrawalError DB :=
  match approveWithdrawalCheck db wid with
  | .error e => .error e
  | .ok (w, _) =>
    .ok (commitTransaction
      ((approveWithdrawalWriteList w now).foldl sessionWrite
        (startSession db)))

/-- The session write sequence `approveWithdrawal` issues on the given
database (empty when validation fails before any write). -/
def approveWithdrawalWrites (db : DB) (wid : Nat) (now : Int) :
    List (DB → DB) :=
  match approveWithdrawalCheck db wid with
  | .error _ => []
  | .ok (w, _) => approveWithdrawalWriteList w now

/-- The distinct error responses of `rejectWithdrawal`. -/
inductive RejectWithdrawalError
  | withdrawalNotFound
  | alreadyProcessed
deriving DecidableEq, Repr

/-- `exports.rejectWithdrawal`: pending → rejected, no other effect. -/
def rejectWithdrawal (db : DB) (wid : Nat) :
    Except RejectWithdrawalError DB :=
  match findWithdraw db wid with
  | none => .error .withdrawalNotFound
  | some w =>
    if w.status ≠ .pending then .error .alreadyProcessed
    else
      let ws := db.withdraws.map
        (fun x => if x.id = w.id then { x with status := WStatus.rejected } else x)
      .ok { db with withdraws := ws }

/-! ### Commission engine (`requestController.js`) -/

/-- The distinct error responses of `createRequest`. -/
inductive CreateRequestError
  /-- 400 "Proof image is required" -/
  | proofImageRequired
  /-- 404 "User not found" -/
  | userNotFound
  /-- 400 "User is not in pending status" -/
  | userNotPending
  /-- 403 "Only the referrer can create a request for this user" -/
  | onlyReferrerCanCreate
  /-- 500: `sender.plan` dereferenced on a missing sender document -/
  | internalError
  /-- 400 "You must have an active plan to create requests" -/
  | mustHaveActivePlan
  /-- 400 "Your plan does not allow referring these users" -/
  | planNotAllowed
  /-- 403 "This user has no referrer. Only they can create their own request" -/
  | onlyUserCanCreateOwn
  /-- 400 "A pending request already exists for this user" -/
  | pendingRequestExists
deriving DecidableEq, Repr

/-- `exports.createRequest`: proof image, subject existence and pending
status, referrer authority and `PLAN_HIERARCHY` gate (or self-submission
when there is no referrer), no duplicate pending request; then persists a
new pending `Request`.  No balance field or ledger entry changes. -/
def createRequest (db : DB) (user_id sender_id : Nat) (plan : Plan)
    (hasFile : Bool) (newId : Nat) : Except CreateRequestError DB :=
  if ¬hasFile then .error .proofImageRequired
  else
    match findUser db user_id with
    | none => .error .userNotFound
    | some user =>
      if user.status ≠ .pending then .error .userNotPending
      else
        let gate : Except CreateRequestError Unit :=
          match user.referral_of with
          | some ref =>
            if ref ≠ sender_id then .error .onlyReferrerCanCreate
            else
              match findUser db sender_id with
              | none => .error .internalError
              | some sender =>
                match sender.plan with
                | none => .error .mustHaveActivePlan
                | some sp =>
                  if ¬planAllowed sp plan then .error .planNotAllowed
                  else .ok ()
          | none =>
            if user_id ≠ sender_id then .error .onlyUserCanCreateOwn
            else .ok ()
        match gate with
        | .error e => .error e
        | .ok _ =>
          if db.requests.any
              (fun r => r.user_id == user_id && r.status == .pending) then
            .error .pendingRequestExists
          else
            .ok { db with requests :=
              db.requests ++ [⟨newId, user_id, sender_id, plan, .pending⟩] }

/-- The distinct error responses of `approveRequest`. -/
inductive ApproveRequestError
  /-- 404 "Request not found" -/
  | requestNotFound
  /-- 400 "Request has already been processed" -/
  | alreadyProcessed
  /-- 500: a document dereferenced after a failed `findById`; the session
  is aborted -/
  | internalError
deriving DecidableEq, Repr

/-- `request.status = 'approved'; request.save({ session })`. -/
def markRequestApproved (rid : Nat) (db : DB) : DB :=
  let rs := db.requests.map
    (fun r => if r.id = rid then { r with status := ReqStatus.approved } else r)
  { db with requests := rs }

/-- `user.status = 'active'; user.plan = request.plan; user.save()`. -/
def activateUser (uid : Nat) (p : Plan) (db : DB) : DB :=
  let us := updateUser db.users uid
    (fun u => { u with status := UserStatus.active, plan := some p })
  { db with users := us }

/-- `sender.direct_income += pricing.direct; sender.balance += pricing.direct`. -/
def creditDirect (uid : Nat) (amount : Int) (db : DB) : DB :=
  let us := updateUser db.users uid
    (fun u => { u with direct_income := u.direct_income + amount,
                       balance := u.balance + amount })
  { db with users := us }

/-- `grandReferrer.passive_income += pricing.passive;
grandReferrer.balance += pricing.passive`. -/
def creditPassive (uid : Nat) (amount : Int) (db : DB) : DB :=
  let us := updateUser db.users uid
    (fun u => { u with passive_income := u.passive_income + amount,
                       balance := u.balance + amount })
  { db with users := us }

/-- The validation phase of `exports.approveRequest`: the request must
exist and be pending; the subject user and (when the commission branch is
taken) the sender must exist, otherwise the handler throws and the session
aborts. -/
def approveRequestCheck (db : DB) (rid : Nat) :
    Except ApproveRequestError (Request × User) :=
  match findRequest db rid with
  | none => .error .requestNotFound
  | some r =>
    if r.status ≠ .pending then .error .alreadyProcessed
    else
      match findUser db r.user_id with
      | none => .error .internalError
      | some user =>
        match user.referral_of with
        | some ref =>
          if ref ≠ r.user_id ∧ findUser db r.sender_id = none then
            .error .internalError
          else .ok (r, user)
        | none => .ok (r, user)

/-- The session writes of `approveRequest`, in source order: mark the
request approved, activate the subject with the requested plan, and — when
the subject has a referrer distinct from itself — credit the sender's
direct income plus a `direct` transaction and, when the sender has a
referrer that exists, credit that grand-referrer's passive income plus a
`passive` transaction. -/
def approveRequestWriteList (db : DB) (r : Request) (user : User)
    (now : Int) : List (DB → DB) :=
  let pricing := PLAN_PRICING r.plan
  [markRequestApproved r.id, activateUser r.user_id r.plan]
  ++ match user.referral_of with
     | some ref =>
       if ref ≠ r.user_id then
         match findUser db r.sender_id with
         | some sender =>
           [creditDirect r.sender_id pricing.direct,
            appendTx r.sender_id .direct pricing.direct now]
           ++ match sender.referral_of with
              | some g =>
                match findUser db g with
                | some _ =>
                  [creditPassive g pricing.passive,
                   appendTx g .passive pricing.passive now]
                | none => []
              | none => []
         | none => []
       else []
     | none => []

/-- `exports.approveRequest`: validation, then the writes inside one
mongoose session, then `commitTransaction`. -/
def approveRequest (db : DB) (rid : Nat) (now : Int) :
    Except ApproveRequestError DB :=
  match approveRequestCheck db rid with
  | .error e => .error e
  | .ok (r, user) =>
    .ok (commitTransaction
      ((approveRequestWriteList db r user now).foldl sessionWrite
        (startSession db)))

/-- The session write sequence `approveRequest` issues on the given
database (empty when validation fails before any write). -/
def approveRequestWrites (db : DB) (rid : Nat) (now : Int) :
    List (DB → DB) :=
  match approveRequestCheck db rid with
  | .error _ => []
  | .ok (r, user) => approveRequestWriteList db r user now

/-- The distinct error responses of `rejectRequest`. -/
inductive RejectRequestError
  | requestNotFound
  | onlyPendingCanBeRejected
deriving DecidableEq, Repr

/-- `exports.rejectRequest`: a pending request is deleted outright. -/
def rejectRequest (db : DB) (rid : Nat) : Except RejectRequestError DB :=
  match findRequest db rid with
  | none => .error .requestNotFound
  | some r =>
    if r.status ≠ .pending then .error .onlyPendingCanBeRejected
    else
      .ok { db with requests := db.requests.filter (fun q => q.id != rid) }

/-! ### Upgrade engine (admin approval, upgrade-request controller) -/

/-- The distinct error responses of `approveUpgradeRequest`. -/
inductive ApproveUpgradeError
  /-- 404 "Upgrade request not found" -/
  | requestNotFound
  /-- 400 "already been processed or not yet approved by referrer" -/
  | notUserApproved
  /-- 404 "User not found" -/
  | userNotFound
  /-- 404 "New referrer not found" -/
  | newReferrerNotFound
deriving DecidableEq, Repr

/-- `user.plan = new_plan; user.referral_of = new_referrer_id;
user.save()`. -/
def setPlanAndReferrer (uid : Nat) (p : Plan) (ref : Nat) (db : DB) : DB :=
  let us := updateUser db.users uid
    (fun u => { u with plan := some p, referral_of := some ref })
  { db with users := us }

/-- `upgradeRequest.status = 'approved'; upgradeRequest.save()`. -/
def markUpgradeApproved (rid : Nat) (db : DB) : DB :=
  let rs := db.upgradeRequests.map
    (fun r => if r.id = rid then { r with status := UStatus.approved } else r)
  { db with upgradeRequests := rs }

/-- The validation phase of `exports.approveUpgradeRequest`: the upgrade
request must exist in `user_approved` status, and the subject and new
referrer must exist. -/
def approveUpgradeRequestCheck (db : DB) (rid : Nat) :
    Except ApproveUpgradeError (UpgradeRequest × User) :=
  match findUpgradeRequest db rid with
  | none => .error .requestNotFound
  | some r =>
    if r.status ≠ .user_approved then .error .notUserApproved
    else
      match findUser db r.user_id with
      | none => .error .userNotFound
      | some _ =>
        match findUser db r.new_referrer_id with
        | none => .error .newReferrerNotFound
        | some nr => .ok (r, nr)

/-- The writes of `approveUpgradeRequest`, in source order: set the
subject's plan and referrer, credit the new referrer's direct income plus
a `direct` transaction, credit the grand-referrer's passive income plus a
`passive` transaction when one exists and the upgrade is not discounted,
and finally mark the request approved.  Unlike `approveRequest`, these
writes are issued with no mongoose session. -/
def approveUpgradeRequestWriteList (db : DB) (r : UpgradeRequest)
    (nr : User) (now : Int) : List (DB → DB) :=
  let pricing := PLAN_PRICING r.new_plan
  [setPlanAndReferrer r.user_id r.new_plan r.new_referrer_id,
   creditDirect r.new_referrer_id pricing.direct,
   appendTx r.new_referrer_id .direct pricing.direct now]
  ++ (match nr.referral_of with
      | some g =>
        match findUser db g with
        | some _ =>
          if ¬r.discounted then
            [creditPassive g pricing.passive,
             appendTx g .passive pricing.passive now]
          else []
        | none => []
      | none => [])
  ++ [markUpgradeApproved r.id]

/-- The write sequence `approveUpgradeRequest` issues on the given
database (empty when validation fails before any write). -/
def approveUpgradeRequestWrites (db : DB) (rid : Nat) (now : Int) :
    List (DB → DB) :=
  match approveUpgradeRequestCheck db rid with
  | .error _ => []
  | .ok (r, nr) => approveUpgradeRequestWriteList db r nr now

/-- `exports.approveUpgradeRequest`: validation, then the bare
(session-less) writes applied in order. -/
def approveUpgradeRequest (db : DB) (rid : Nat) (now : Int) :
    Except ApproveUpgradeError DB :=
  match approveUpgradeRequestCheck db rid with
  | .error e => .error e
  | .ok (r, nr) => .ok (applyWrites db (approveUpgradeRequestWriteList db r nr now))

/-! ### Leaderboard aggregator (`leaderboardJob.js`)

Anchor dates and transaction timestamps are measured in whole UTC days;
`today` is the UTC date on which the cron job fires.  The daily job windows
yesterday (`[today-1, today)`), the weekly job the previous Monday-to-Sunday
week (`[today-7, today)`, fired on a Monday), and the monthly job the
previous calendar month; the month boundaries computed with `Date.UTC` are
taken as parameters since calendar months have varying lengths. -/

/-- The signed contribution of a ledger entry: `direct` and `passive` add
the amount, `withdrawal` subtracts it (the `$cond` of the aggregation
pipeline). -/
def signedAmount (t : Transaction) : Int :=
  match t.type with
  | .withdrawal => -t.amount
  | _ => t.amount

/-- The `$match` stage: `createdAt >= start && createdAt < stop` (the
`type: { $in: [direct, passive, withdrawal] }` clause matches every
transaction kind and is a no-op in this model). -/
def inWindow (start stop : Int) (t : Transaction) : Bool :=
  decide (start ≤ t.createdAt) && decide (t.createdAt < stop)

/-- The signed sum of one user's ledger entries inside a window. -/
def windowSum (txs : List Transaction) (start stop : Int) (uid : Nat) : Int :=
  (((txs.filter (inWindow start stop)).filter
      (fun t => t.user_id == uid)).map signedAmount).sum

/-- The `$group` stage: one `(user, total)` row per user that has at least
one transaction inside the window. -/
def groupTotals (txs : List Transaction) (start stop : Int) :
    List (Nat × Int) :=
  (((txs.filter (inWindow start stop)).map
      (fun t => t.user_id)).dedup).map
    (fun uid => (uid, windowSum txs start stop uid))

/-- One row of `DailyStat`/`WeeklyStat`/`MonthlyStat`. -/
structure Stat where
  userId : Nat
  total : Int
  date : Int
deriving DecidableEq, Repr

/-- `calculateDailyStats`: aggregate yesterday's transactions per user,
prune stats older than seven days before yesterday, delete yesterday's
existing rows, insert the fresh rows anchored at yesterday. -/
def calculateDailyStats (stats : List Stat) (txs : List Transaction)
    (today : Int) : List Stat :=
  let startOfYesterday := today - 1
  let endOfYesterday := today
  let dailyTotals := groupTotals txs startOfYesterday endOfYesterday
  let sevenDaysAgo := startOfYesterday - 7
  let afterPrune := stats.filter (fun st => !decide (st.date < sevenDaysAgo))
  let afterAnchorDelete :=
    afterPrune.filter (fun st => !decide (st.date = startOfYesterday))
  afterAnchorDelete ++
    dailyTotals.map (fun it => ⟨it.1, it.2, startOfYesterday⟩)

/-- `calculateWeeklyStats`: same shape with the previous-week window
`[today-7, today)` and a 28-day pruning horizon. -/
def calculateWeeklyStats (stats : List Stat) (txs : List Transaction)
    (today : Int) : List Stat :=
  let startOfLastWeek := today - 7
  let endOfLastWeek := today
  let weeklyTotals := groupTotals txs startOfLastWeek endOfLastWeek
  let fourWeeksAgo := startOfLastWeek - 28
  let afterPrune := stats.filter (fun st => !decide (st.date < fourWeeksAgo))
  let afterAnchorDelete :=
    afterPrune.filter (fun st => !decide (st.date = startOfLastWeek))
  afterAnchorDelete ++
    weeklyTotals.map (fun it => ⟨it.1, it.2, startOfLastWeek⟩)

/-- `calculateMonthlyStats`: same shape with the previous calendar month
`[startOfLastMonth, startOfCurrentMonth)` and a twelve-month pruning
horizon; the three `Date.UTC` boundaries are parameters. -/
def calculateMonthlyStats (stats : List Stat) (txs : List Transaction)
    (startOfLastMonth startOfCurrentMonth twelveMonthsAgo : Int) :
    List Stat :=
  let monthlyTotals := groupTotals txs startOfLastMonth startOfCurrentMonth
  let afterPrune :=
    stats.filter (fun st => !decide (st.date < twelveMonthsAgo))
  let afterAnchorDelete :=
    afterPrune.filter (fun st => !decide (st.date = startOfLastMonth))
  afterAnchorDelete ++
    monthlyTotals.map (fun it => ⟨it.1, it.2, startOfLastMonth⟩)

/-! ### The ledger-reconciliation invariant -/

/-- The signed sum of one user's whole ledger, as recomputed by the
read-side reconciliation in `getMe` (`direct`/`passive` add, `withdrawal`
subtracts). -/
def userLedgerSum (txs : List Transaction) (uid : Nat) : Int :=
  ((txs.filter (fun t => t.user_id == uid)).map signedAmount).sum

/-- Decidable form of the reconciliation invariant: every account's cached
`balance` equals the signed sum of its ledger entries. -/
def balanceInvB (db : DB) : Bool :=
  db.users.all (fun u => u.balance == userLedgerSum db.transactions u.id)

/-- Propositional form of the reconciliation invariant. -/
def BalanceInv (db : DB) : Prop :=
  ∀ u ∈ db.users, u.balance = userLedgerSum db.transactions u.id

theorem balanceInvB_iff (db : DB) : balanceInvB db = true ↔ BalanceInv db := by
  simp [balanceInvB, BalanceInv, List.all_eq_true]

/-! ### Helper lemmas -/

/-- The code's `PLAN_HIERARCHY` membership test coincides with the spec's
tier comparison: a sponsor of tier `k` may refer exactly the tiers `≤ k`. -/
theorem planAllowed_iff_tier (sp p : Plan) :
    planAllowed sp p = true ↔ specPlanTier p ≤ specPlanTier sp := by
  cases sp <;> cases p <;> decide

/-- Errors of `createWithdrawal` that the spec taxonomy calls
`InvalidInput` (malformed amount / missing fields). -/
def isInvalidInputW : CreateWithdrawalError → Bool
  | .missingFields => true
  | .amountBelowMinimum => true
  | _ => false

/-! ### Claims -/

/-- Claim C5: with a subject that has an upline equal to the submitting
sponsor, and a sponsor holding plan `sp`, request creation fails with
PlanNotAllowed exactly when the requested plan's tier exceeds the
sponsor's tier; the allowance is the code's `PLAN_HIERARCHY` of the
sponsor's current plan, which permits exactly the tiers `≤` its own. -/
theorem claim_C5_plan_hierarchy
    (db : DB) (uid sid : Nat) (p : Plan) (rid : Nat) (u sender : User)
    (sp : Plan)
    (hu : findUser db uid = some u) (hpend : u.status = .pending)
    (href : u.referral_of = some sid)
    (hs : findUser db sid = some sender) (hsp : sender.plan = some sp) :
    (createRequest db uid sid p true rid = .error .planNotAllowed ↔
      ¬ specPlanTier p ≤ specPlanTier sp) ∧
    (planAllowed sp p = true ↔ specPlanTier p ≤ specPlanTier sp) := by
  refine ⟨?_, planAllowed_iff_tier sp p⟩
  rw [← planAllowed_iff_tier sp p]
  unfold createRequest
  rw [hu, hs]
  by_cases hall : planAllowed sp p = true
  · by_cases hex : (db.requests.any
        fun r => r.user_id == uid && r.status == ReqStatus.pending) = true
    · simp [hpend, href, hsp, hall, hex]
    · simp [hpend, href, hsp, hall, hex]
  · simp [hpend, href, hsp, hall]

/-- A sponsor on the tier-1 plan with one pending downline. -/
def exC5db : DB :=
  ⟨[⟨1, 0, 0, 0, none, .active, some .knowic⟩,
    ⟨2, 0, 0, 0, some 1, .pending, none⟩], [], [], [], []⟩

/-- Witness for C5: a tier-1 (`knowic`) sponsor requesting a tier-2
(`learnic`) activation is rejected with PlanNotAllowed. -/
theorem claim_C5_witness :
    createRequest exC5db 2 1 .learnic true 10 = .error .planNotAllowed ∧
    ¬ specPlanTier .learnic ≤ specPlanTier .knowic := by
  have h := claim_C5_plan_hierarchy exC5db 2 1 .learnic 10
    ⟨2, 0, 0, 0, some 1, .pending, none⟩
    ⟨1, 0, 0, 0, none, .active, some .knowic⟩ .knowic
    (by decide) (by decide) (by decide) (by decide) (by decide)
  exact ⟨h.1.mpr (by decide), by decide⟩

/-- Fields-present normal form of `createWithdrawal`. -/
theorem createWithdrawal_some (db : DB) (uid : Nat) (bnv banv : String)
    (a : Int) (wid : Nat) (h1 : bnv ≠ "") (h2 : banv ≠ "") (h3 : a ≠ 0) :
    createWithdrawal db uid (some bnv) (some banv) (some a) wid =
      if a < 30 then .error .amountBelowMinimum
      else
        match findUser db uid with
        | none => .error .userNotFound
        | some user =>
          if user.passive_income < a then .error .insufficientPassiveIncome
          else if db.withdraws.any
              (fun w => w.user_id == uid && w.status == WStatus.pending) then
            .error .pendingWithdrawalExists
          else
            .ok { db with withdraws :=
              db.withdraws ++ [⟨wid, uid, bnv, banv, a, .pending⟩] } := by
  unfold createWithdrawal
  simp [falsyStr, falsyNum, h1, h2, h3]

/-- Claim C4: withdrawal creation fails with an InvalidInput-class error
when a bank field is missing or the amount is absent, zero or below 30;
fails with InsufficientFunds when the amount exceeds the account's
`passive_income`; fails with Conflict when a pending withdrawal already
exists; and otherwise persists a new pending withdrawal while leaving the
users and the ledger untouched. -/
theorem claim_C4_createWithdrawal (db : DB) (uid : Nat)
    (bn ban : Option String) (amt : Option Int) (wid : Nat) :
    ((falsyStr bn = true ∨ falsyStr ban = true ∨ falsyNum amt = true ∨
        (∃ a, amt = some a ∧ a < 30)) →
      ∃ e, createWithdrawal db uid bn ban amt wid = .error e ∧
        isInvalidInputW e = true) ∧
    (∀ bnv banv a u, bn = some bnv → bnv ≠ "" → ban = some banv →
      banv ≠ "" → amt = some a → 30 ≤ a → findUser db uid = some u →
      u.passive_income < a →
      createWithdrawal db uid bn ban amt wid =
        .error .insufficientPassiveIncome) ∧
    (∀ bnv banv a u, bn = some bnv → bnv ≠ "" → ban = some banv →
      banv ≠ "" → amt = some a → 30 ≤ a → findUser db uid = some u →
      a ≤ u.passive_income →
      (db.withdraws.any
        (fun w => w.user_id == uid && w.status == WStatus.pending)) = true →
      createWithdrawal db uid bn ban amt wid =
        .error .pendingWithdrawalExists) ∧
    (∀ bnv banv a u, bn = some bnv → bnv ≠ "" → ban = some banv →
      banv ≠ "" → amt = some a → 30 ≤ a → findUser db uid = some u →
      a ≤ u.passive_income →
      (db.withdraws.any
        (fun w => w.user_id == uid && w.status == WStatus.pending)) = false →
      createWithdrawal db uid bn ban amt wid =
        .ok { db with withdraws :=
          db.withdraws ++ [⟨wid, uid, bnv, banv, a, .pending⟩] }) := by
  refine ⟨?_, ?_, ?_, ?_⟩
  · rintro (h | h | h | ⟨a, rfl, hlt⟩)
    · exact ⟨.missingFields, by unfold createWithdrawal; simp [h], rfl⟩
    · exact ⟨.missingFields, by unfold createWithdrawal; simp [h], rfl⟩
    · exact ⟨.missingFields, by unfold createWithdrawal; simp [h], rfl⟩
    · by_cases hf : (falsyStr bn || falsyStr ban || falsyNum (some a)) = true
      · exact ⟨.missingFields, by unfold createWithdrawal; simp [hf], rfl⟩
      · simp only [Bool.or_eq_true, not_or, Bool.not_eq_true] at hf
        have hbn := hf.1.1
        have hban := hf.1.2
        have ha0 := hf.2
        obtain ⟨bnv, rfl, hbnv⟩ : ∃ v, bn = some v ∧ v ≠ "" := by
          cases bn with
          | none => simp [falsyStr] at hbn
          | some v =>
            refine ⟨v, rfl, ?_⟩
            simpa [falsyStr, beq_eq_false_iff_ne] using hbn
        obtain ⟨banv, rfl, hbanv⟩ : ∃ v, ban = some v ∧ v ≠ "" := by
          cases ban with
          | none => simp [falsyStr] at hban
          | some v =>
            refine ⟨v, rfl, ?_⟩
            simpa [falsyStr, beq_eq_false_iff_ne] using hban
        have ha0' : a ≠ 0 := by
          simpa [falsyNum, beq_eq_false_iff_ne] using ha0
        refine ⟨.amountBelowMinimum, ?_, rfl⟩
        rw [createWithdrawal_some db uid bnv banv a wid hbnv hbanv ha0']
        simp [hlt]
  · rintro bnv banv a u rfl hbnv rfl hbanv rfl h30 hu hlt
    have hne : a ≠ 0 := by omega
    have h30' : ¬ a < 30 := by omega
    rw [createWithdrawal_some db uid bnv banv a wid hbnv hbanv hne, hu]
    simp [hlt, h30']
  · rintro bnv banv a u rfl hbnv rfl hbanv rfl h30 hu hge hex
    have hne : a ≠ 0 := by omega
    have h30' : ¬ a < 30 := by omega
    have hlt' : ¬ u.passive_income < a := by omega
    rw [createWithdrawal_some db uid bnv banv a wid hbnv hbanv hne, hu]
    simp [hex, h30', hlt']
  · rintro bnv banv a u rfl hbnv rfl hbanv rfl h30 hu hge hex
    have hne : a ≠ 0 := by omega
    have h30' : ¬ a < 30 := by omega
    have hlt' : ¬ u.passive_income < a := by omega
    rw [createWithdrawal_some db uid bnv banv a wid hbnv hbanv hne, hu]
    simp [hex, h30', hlt']

/-- A user with `passive_income` 40 who already has a pending withdrawal. -/
def exC4db : DB :=
  ⟨[⟨1, 40, 0, 40, none, .active, some .knowic⟩],
   [], [⟨3, 1, "b", "a", 35, .pending⟩], [], []⟩

/-- The same user with no pending withdrawal. -/
def exC4db2 : DB :=
  ⟨[⟨1, 40, 0, 40, none, .active, some .knowic⟩], [], [], [], []⟩

/-- Witness for C4: requesting 50 with `passive_income` 40 is
InsufficientFunds; requesting 30 while a pending withdrawal exists is
Conflict; requesting 30 with no pending withdrawal persists a pending
withdrawal and changes no user or ledger row. -/
theorem claim_C4_witness :
    (createWithdrawal exC4db 1 (some "b") (some "a") (some 50) 9 =
      .error .insufficientPassiveIncome) ∧
    (createWithdrawal exC4db 1 (some "b") (some "a") (some 30) 9 =
      .error .pendingWithdrawalExists) ∧
    (createWithdrawal exC4db2 1 (some "b") (some "a") (some 30) 9 =
      .ok { exC4db2 with withdraws := [⟨9, 1, "b", "a", 30, .pending⟩] }) := by
  refine ⟨?_, ?_, ?_⟩
  · exact (claim_C4_createWithdrawal exC4db 1 (some "b") (some "a")
      (some 50) 9).2.1 "b" "a" 50 ⟨1, 40, 0, 40, none, .active, some .knowic⟩
      rfl (by decide) rfl (by decide) rfl (by decide) (by decide) (by decide)
  · exact (claim_C4_createWithdrawal exC4db 1 (some "b") (some "a")
      (some 30) 9).2.2.1 "b" "a" 30 ⟨1, 40, 0, 40, none, .active, some .knowic⟩
      rfl (by decide) rfl (by decide) rfl (by decide) (by decide) (by decide)
      (by decide)
  · exact (claim_C4_createWithdrawal exC4db2 1 (some "b") (some "a")
      (some 30) 9).2.2.2 "b" "a" 30 ⟨1, 40, 0, 40, none, .active, some .knowic⟩
      rfl (by decide) rfl (by decide) rfl (by decide) (by decide) (by decide)
      (by decide)

/-- Folding session writes and committing equals applying the writes. -/
theorem commit_foldl (db : DB) (ws : List (DB → DB)) :
    commitTransaction (ws.foldl sessionWrite (startSession db)) =
      applyWrites db ws := by
  suffices h : ∀ (l : List (DB → DB)) (s : Session),
      (l.foldl sessionWrite s).view = applyWrites s.view l by
    exact h ws (startSession db)
  intro l
  induction l with
  | nil => intro s; rfl
  | cons f t ih => intro s; exact ih (sessionWrite s f)

/-- Writes routed through a session never change the durable state before
commit: a crash at any point of the transaction leaves the database as it
was. -/
theorem sessionCrashAfter_eq (db : DB) (ws : List (DB → DB)) (k : Nat) :
    sessionCrashAfter db ws k = db := by
  suffices h : ∀ (l : List (DB → DB)) (s : Session),
      (l.foldl sessionWrite s).durable = s.durable by
    exact h (ws.take k) (startSession db)
  intro l
  induction l with
  | nil => intro s; rfl
  | cons f t ih => intro s; exact ih (sessionWrite s f)

/-- Claim C10: approving a pending withdrawal with sufficient funds
changes exactly the withdrawal's status (to approved), the owner's
`passive_income` (down by the amount) and the ledger (one appended
`withdrawal` entry); every other field of every user — in particular
`balance` and `direct_income` — and every other collection are unchanged. -/
theorem claim_C10_approveWithdrawal_frame (db : DB) (wid : Nat) (now : Int)
    (w : Withdraw) (u : User)
    (hw : findWithdraw db wid = some w) (hwp : w.status = .pending)
    (hu : findUser db w.user_id = some u)
    (hfund : ¬ u.passive_income < w.amount) :
    approveWithdrawal db wid now =
      .ok { db with
        withdraws := db.withdraws.map (fun x =>
          if x.id = wid then { x with status := WStatus.approved } else x),
        users := db.users.map (fun x =>
          if x.id = w.user_id then
            { x with passive_income := x.passive_income - w.amount } else x),
        transactions :=
          db.transactions ++ [⟨w.user_id, .withdrawal, w.amount, now⟩] } := by
  have hwid : w.id = wid := by
    have h2 := List.find?_some (p := fun x : Withdraw => x.id == wid)
      (by simpa [findWithdraw] using hw)
    simpa using h2
  have hcheck : approveWithdrawalCheck db wid = .ok (w, u) := by
    simp [approveWithdrawalCheck, hw, hwp, hu, hfund]
  unfold approveWithdrawal
  rw [hcheck]
  simp only [commit_foldl]
  simp [applyWrites, approveWithdrawalWriteList, markWithdrawApproved,
    debitPassiveIncome, appendTx, updateUser, hwid]

/-- One user with a pending withdrawal of 30 against passive income 40. -/
def exC10db : DB :=
  ⟨[⟨1, 40, 7, 40, none, .active, some .knowic⟩],
   [], [⟨5, 1, "b", "a", 30, .pending⟩], [], [⟨1, .passive, 40, 0⟩]⟩

/-- Witness for C10 at a concrete database. -/
theorem claim_C10_witness :
    approveWithdrawal exC10db 5 9 =
      .ok ⟨[⟨1, 40, 7, 10, none, .active, some .knowic⟩],
        [], [⟨5, 1, "b", "a", 30, .approved⟩], [],
        [⟨1, .passive, 40, 0⟩, ⟨1, .withdrawal, 30, 9⟩]⟩ := by
  have h := claim_C10_approveWithdrawal_frame exC10db 5 9
    ⟨5, 1, "b", "a", 30, .pending⟩ ⟨1, 40, 7, 40, none, .active, some .knowic⟩
    (by decide) (by decide) (by decide) (by decide)
  rw [h]
  decide

/-- Unpacking a successful `approveRequestCheck`. -/
theorem approveRequestCheck_ok {db : DB} {rid : Nat} {r : Request} {u : User}
    (h : approveRequestCheck db rid = .ok (r, u)) :
    findRequest db rid = some r ∧ r.status = .pending ∧
      findUser db r.user_id = some u := by
  unfold approveRequestCheck at h
  cases hf : findRequest db rid with
  | none => rw [hf] at h; cases h
  | some r0 =>
    simp only [hf] at h
    by_cases hs : r0.status = ReqStatus.pending
    · simp only [hs, ne_eq, not_true_eq_false, if_false] at h
      cases hu : findUser db r0.user_id with
      | none => simp [hu] at h
      | some user =>
        simp only [hu] at h
        cases href : user.referral_of with
        | none =>
          simp only [href, Except.ok.injEq, Prod.mk.injEq] at h
          obtain ⟨rfl, rfl⟩ := h
          exact ⟨rfl, hs, hu⟩
        | some ref =>
          simp only [href] at h
          split at h
          · cases h
          · simp only [Except.ok.injEq, Prod.mk.injEq] at h
            obtain ⟨rfl, rfl⟩ := h
            exact ⟨rfl, hs, hu⟩
    · simp [hs] at h

/-- A successful `approveRequest` is the write list applied to the
database. -/
theorem approveRequest_ok_shape {db : DB} {rid : Nat} {now : Int} {db1 : DB}
    (h : approveRequest db rid now = .ok db1) :
    ∃ r u, approveRequestCheck db rid = .ok (r, u) ∧
      db1 = applyWrites db (approveRequestWriteList db r u now) := by
  unfold approveRequest at h
  cases hc : approveRequestCheck db rid with
  | error e => rw [hc] at h; cases h
  | ok p =>
    obtain ⟨r, u⟩ := p
    rw [hc] at h
    simp only [commit_foldl, Except.ok.injEq] at h
    exact ⟨r, u, rfl, h.symm⟩

/-- Every write of `approveRequestWriteList` past the first leaves the
`requests` collection unchanged. -/
theorem approveRequestWriteList_tail_requests (db : DB) (r : Request)
    (u : User) (now : Int) :
    ∀ f ∈ (approveRequestWriteList db r u now).drop 1, ∀ s : DB,
      (f s).requests = s.requests := by
  intro f hf s
  unfold approveRequestWriteList at hf
  simp only [List.cons_append, List.nil_append, List.drop_succ_cons,
    List.drop_zero] at hf
  rw [List.mem_cons] at hf
  rcases hf with rfl | hf
  · rfl
  cases href : u.referral_of with
  | none => rw [href] at hf; simp at hf
  | some ref =>
    simp only [href] at hf
    by_cases hne : ref ≠ r.user_id
    · simp only [if_pos hne] at hf
      cases hfs : findUser db r.sender_id with
      | none => simp only [hfs] at hf; simp at hf
      | some sender =>
        simp only [hfs, List.cons_append, List.nil_append] at hf
        rw [List.mem_cons] at hf
        rcases hf with rfl | hf
        · rfl
        rw [List.mem_cons] at hf
        rcases hf with rfl | hf
        · rfl
        cases hg0 : sender.referral_of with
        | none => rw [hg0] at hf; simp at hf
        | some g =>
          simp only [hg0] at hf
          cases hg : findUser db g with
          | none => simp only [hg] at hf; simp at hf
          | some _ =>
            simp only [hg] at hf
            rw [List.mem_cons] at hf
            rcases hf with rfl | hf
            · rfl
            rw [List.mem_cons] at hf
            rcases hf with rfl | hf
            · rfl
            · simp at hf
    · simp only [if_neg hne] at hf; simp at hf

/-- Requests after a successful activation approval: the approved request
flips to `approved`, nothing else in the collection changes. -/
theorem approveRequest_ok_requests {db : DB} {rid : Nat} {now : Int}
    {db1 : DB} (h : approveRequest db rid now = .ok db1) :
    db1.requests = db.requests.map
      (fun q => if q.id = rid then { q with status := ReqStatus.approved }
        else q) := by
  obtain ⟨r, u, hc, rfl⟩ := approveRequest_ok_shape h
  obtain ⟨hf, _, _⟩ := approveRequestCheck_ok hc
  have hrid : r.id = rid := by
    have h2 := List.find?_some (p := fun x : Request => x.id == rid)
      (by simpa [findRequest] using hf)
    simpa using h2
  have htail := approveRequestWriteList_tail_requests db r u now
  rcases hws : approveRequestWriteList db r u now with _ | ⟨f0, rest⟩
  · exact absurd hws (by unfold approveRequestWriteList; simp)
  · have hf0 : f0 = markRequestApproved r.id := by
      have : (approveRequestWriteList db r u now).head? = some f0 := by
        rw [hws]; rfl
      unfold approveRequestWriteList at this
      simpa using this.symm
    have hrest : ∀ f ∈ rest, ∀ s : DB, (f s).requests = s.requests := by
      intro f hfm
      apply htail
      rw [hws]
      simpa using hfm
    have hfold : ∀ (l : List (DB → DB)) (s : DB),
        (∀ f ∈ l, ∀ t : DB, (f t).requests = t.requests) →
        (applyWrites s l).requests = s.requests := by
      intro l
      induction l with
      | nil => intro s _; rfl
      | cons g t ih =>
        intro s hl
        have hg := hl g (by simp)
        have ht : ∀ f ∈ t, ∀ x : DB, (f x).requests = x.requests := by
          intro f hfm
          exact hl f (by simp [hfm])
        calc (applyWrites s (g :: t)).requests
            = (applyWrites (g s) t).requests := rfl
          _ = (g s).requests := ih (g s) ht
          _ = s.requests := hg s
    have hstep : applyWrites db (f0 :: rest) = applyWrites (f0 db) rest := rfl
    rw [hstep, hfold rest (f0 db) hrest, hf0, hrid]
    simp [markRequestApproved]

/-- Claim C6: a second sequential approval of the same activation request
fails with the already-processed (InvalidState) error, and it issues no
session write at all — the single set of commission ledger entries and
credits produced by the first approval stands, no account is credited
twice. -/
theorem claim_C6_no_double_approval (db : DB) (rid : Nat) (now now2 : Int)
    (db1 : DB) (h : approveRequest db rid now = .ok db1) :
    approveRequest db1 rid now2 = .error .alreadyProcessed ∧
    approveRequestWrites db1 rid now2 = [] := by
  have hreq := approveRequest_ok_requests h
  obtain ⟨r, u, hc, _⟩ := approveRequest_ok_shape h
  obtain ⟨hf, hpend, _⟩ := approveRequestCheck_ok hc
  have hrid : r.id = rid := by
    have h2 := List.find?_some (p := fun x : Request => x.id == rid)
      (by simpa [findRequest] using hf)
    simpa using h2
  have hfind1 : findRequest db1 rid =
      some { r with status := ReqStatus.approved } := by
    unfold findRequest
    rw [hreq, List.find?_map]
    have hpf : ((fun q : Request => q.id == rid) ∘
        (fun q : Request =>
          if q.id = rid then { q with status := ReqStatus.approved }
          else q)) = fun q : Request => q.id == rid := by
      funext q
      by_cases hq : q.id = rid <;> simp [hq]
    rw [hpf]
    unfold findRequest at hf
    rw [hf]
    simp [hrid]
  have hcheck1 : approveRequestCheck db1 rid =
      .error .alreadyProcessed := by
    unfold approveRequestCheck
    rw [hfind1]
    simp
  constructor
  · unfold approveRequest; rw [hcheck1]
  · unfold approveRequestWrites; rw [hcheck1]

/-- Sponsor 1 (tier-3) with downline 2; a pending activation request for
user 2 submitted by sponsor 1. -/
def exC6db : DB :=
  ⟨[⟨1, 0, 0, 0, none, .active, some .masteric⟩,
    ⟨2, 0, 0, 0, some 1, .pending, none⟩],
   [⟨4, 2, 1, .knowic, .pending⟩], [], [], []⟩

/-- The database after the first approval of request 4 in `exC6db`. -/
def exC6db1 : DB :=
  match approveRequest exC6db 4 0 with
  | .ok d => d
  | .error _ => exC6db

/-- Witness for C6: after the first successful approval, the second
approval of the same request fails with the InvalidState error and issues
no write. -/
theorem claim_C6_witness :
    approveRequest exC6db1 4 1 = .error .alreadyProcessed ∧
    approveRequestWrites exC6db1 4 1 = [] :=
  claim_C6_no_double_approval exC6db 4 0 1 exC6db1 (by decide)

/-- A found user carries the looked-up id. -/
theorem findUser_id {db : DB} {uid : Nat} {u : User}
    (h : findUser db uid = some u) : u.id = uid := by
  have h2 := List.find?_some (p := fun x : User => x.id == uid)
    (by simpa [findUser] using h)
  simpa using h2

/-- Looking a user up after an id-preserving update of another (or the
same) user. -/
theorem find?_updateUser (users : List User) (tid uid : Nat)
    (f : User → User) (hid : ∀ u, (f u).id = u.id) :
    (updateUser users tid f).find? (fun u => u.id == uid) =
      (users.find? (fun u => u.id == uid)).map
        (fun u => if u.id = tid then f u else u) := by
  unfold updateUser
  rw [List.find?_map]
  have hpg : ((fun u : User => u.id == uid) ∘
      (fun u => if u.id = tid then f u else u)) =
      fun u : User => u.id == uid := by
    funext u
    by_cases h : u.id = tid <;> simp [h, hid u]
  rw [hpg]

/-- `find?_updateUser` specialised to the activation write. -/
theorem find?_activateUser (users : List User) (tid uid : Nat) (p' : Plan) :
    (updateUser users tid (fun x =>
      { x with status := UserStatus.active, plan := some p' })).find?
        (fun x => x.id == uid) =
      (users.find? (fun x => x.id == uid)).map (fun x =>
        if x.id = tid then
          { x with status := UserStatus.active, plan := some p' }
        else x) :=
  find?_updateUser users tid uid _ (fun _ => rfl)

/-- `find?_updateUser` specialised to the direct-commission write. -/
theorem find?_creditDirect (users : List User) (tid uid : Nat) (a : Int) :
    (updateUser users tid (fun x =>
      { x with direct_income := x.direct_income + a,
               balance := x.balance + a })).find?
        (fun x => x.id == uid) =
      (users.find? (fun x => x.id == uid)).map (fun x =>
        if x.id = tid then
          { x with direct_income := x.direct_income + a,
                   balance := x.balance + a }
        else x) :=
  find?_updateUser users tid uid _ (fun _ => rfl)

/-- `find?_updateUser` specialised to the passive-commission write. -/
theorem find?_creditPassive (users : List User) (tid uid : Nat) (a : Int) :
    (updateUser users tid (fun x =>
      { x with passive_income := x.passive_income + a,
               balance := x.balance + a })).find?
        (fun x => x.id == uid) =
      (users.find? (fun x => x.id == uid)).map (fun x =>
        if x.id = tid then
          { x with passive_income := x.passive_income + a,
                   balance := x.balance + a }
        else x) :=
  find?_updateUser users tid uid _ (fun _ => rfl)

/-- Shape of a successful activation approval in the commission branch
(subject has a referrer equal to the sender, distinct from itself, and
the sender exists). -/
theorem approveRequest_commission_shape
    (db : DB) (rid : Nat) (now : Int) (r : Request) (u s : User)
    (hr : findRequest db rid = some r) (hrp : r.status = .pending)
    (hu : findUser db r.user_id = some u)
    (huref : u.referral_of = some r.sender_id)
    (hne : r.sender_id ≠ r.user_id)
    (hs : findUser db r.sender_id = some s) :
    approveRequest db rid now = .ok (applyWrites db
      ([markRequestApproved r.id, activateUser r.user_id r.plan]
       ++ ([creditDirect r.sender_id (PLAN_PRICING r.plan).direct,
            appendTx r.sender_id .direct (PLAN_PRICING r.plan).direct now]
         ++ match s.referral_of with
            | some g =>
              match findUser db g with
              | some _ =>
                [creditPassive g (PLAN_PRICING r.plan).passive,
                 appendTx g .passive (PLAN_PRICING r.plan).passive now]
              | none => []
            | none => []))) := by
  have hcheck : approveRequestCheck db rid = .ok (r, u) := by
    unfold approveRequestCheck
    rw [hr]
    simp only [hrp, ne_eq, not_true_eq_false, if_false]
    simp only [hu, huref, hs]
    simp [hne]
  unfold approveRequest
  rw [hcheck]
  simp only [commit_foldl]
  congr 1
  unfold approveRequestWriteList
  simp only [huref, ne_eq, hne, not_false_eq_true, if_true, hs]

/-- Claim C3: approving a tier-1 (`knowic`) activation submitted by the
subject's upline S credits S with exactly 16 of `direct_income` and
`balance` and appends exactly one `direct` ledger entry of 16 for S; and
whenever S itself has an existing upline G, G gains exactly 2 of
`passive_income` and `balance` with exactly one `passive` ledger entry of
2. -/
theorem claim_C3_tier1_commission
    (db : DB) (rid : Nat) (now : Int) (r : Request) (u s : User)
    (hr : findRequest db rid = some r) (hrp : r.status = .pending)
    (hplan : r.plan = .knowic)
    (hu : findUser db r.user_id = some u)
    (huref : u.referral_of = some r.sender_id)
    (hne : r.sender_id ≠ r.user_id)
    (hs : findUser db r.sender_id = some s)
    (hloop : s.referral_of ≠ some r.sender_id) :
    ∃ db2, approveRequest db rid now = .ok db2 ∧
      (findUser db2 r.sender_id).map User.direct_income =
        some (s.direct_income + 16) ∧
      (findUser db2 r.sender_id).map User.balance =
        some (s.balance + 16) ∧
      db2.transactions.filter (fun t =>
          t.user_id == r.sender_id && decide (t.type = TxType.direct)) =
        db.transactions.filter (fun t =>
          t.user_id == r.sender_id && decide (t.type = TxType.direct)) ++
          [⟨r.sender_id, .direct, 16, now⟩] ∧
      (∀ gid g, s.referral_of = some gid → findUser db gid = some g →
        (findUser db2 gid).map User.passive_income =
          some (g.passive_income + 2) ∧
        (findUser db2 gid).map User.balance = some (g.balance + 2) ∧
        db2.transactions.filter (fun t =>
            t.user_id == gid && decide (t.type = TxType.passive)) =
          db.transactions.filter (fun t =>
            t.user_id == gid && decide (t.type = TxType.passive)) ++
            [⟨gid, .passive, 2, now⟩]) := by
  have hsid : s.id = r.sender_id := findUser_id hs
  have hshape := approveRequest_commission_shape db rid now r u s
    hr hrp hu huref hne hs
  rw [hplan] at hshape
  cases hgr : s.referral_of with
  | none =>
    simp only [hgr] at hshape
    have hD : applyWrites db
        ([markRequestApproved r.id, activateUser r.user_id Plan.knowic]
          ++ ([creditDirect r.sender_id (PLAN_PRICING Plan.knowic).direct,
              appendTx r.sender_id .direct
                (PLAN_PRICING Plan.knowic).direct now] ++ [])) =
        { db with
          requests := db.requests.map (fun q =>
            if q.id = r.id then { q with status := ReqStatus.approved }
            else q),
          users := updateUser
            (updateUser db.users r.user_id (fun x =>
              { x with status := UserStatus.active,
                       plan := some Plan.knowic }))
            r.sender_id (fun x =>
              { x with direct_income := x.direct_income + 16,
                       balance := x.balance + 16 }),
          transactions := db.transactions ++
            [⟨r.sender_id, TxType.direct, 16, now⟩] } := by
      simp [applyWrites, markRequestApproved, activateUser, creditDirect,
        appendTx, PLAN_PRICING]
    rw [hD] at hshape
    refine ⟨_, hshape, ?_, ?_, ?_, ?_⟩
    · show ((updateUser (updateUser db.users r.user_id _) r.sender_id
        _).find? (fun x => x.id == r.sender_id)).map User.direct_income = _
      rw [find?_creditDirect, find?_activateUser]
      unfold findUser at hs
      rw [hs]
      simp [hsid, hne]
    · show ((updateUser (updateUser db.users r.user_id _) r.sender_id
        _).find? (fun x => x.id == r.sender_id)).map User.balance = _
      rw [find?_creditDirect, find?_activateUser]
      unfold findUser at hs
      rw [hs]
      simp [hsid, hne]
    · simp [List.filter_append]
    · intro gid g hgid _
      cases hgid
  | some gid =>
    have hgs : ¬ r.sender_id = gid := by
      intro he
      exact hloop (by rw [hgr, he])
    cases hg : findUser db gid with
    | none =>
      simp only [hgr, hg] at hshape
      have hD : applyWrites db
          ([markRequestApproved r.id, activateUser r.user_id Plan.knowic]
            ++ ([creditDirect r.sender_id (PLAN_PRICING Plan.knowic).direct,
                appendTx r.sender_id .direct
                  (PLAN_PRICING Plan.knowic).direct now] ++ [])) =
          { db with
            requests := db.requests.map (fun q =>
              if q.id = r.id then { q with status := ReqStatus.approved }
              else q),
            users := updateUser
              (updateUser db.users r.user_id (fun x =>
                { x with status := UserStatus.active,
                         plan := some Plan.knowic }))
              r.sender_id (fun x =>
                { x with direct_income := x.direct_income + 16,
                         balance := x.balance + 16 }),
            transactions := db.transactions ++
              [⟨r.sender_id, TxType.direct, 16, now⟩] } := by
        simp [applyWrites, markRequestApproved, activateUser, creditDirect,
          appendTx, PLAN_PRICING]
      rw [hD] at hshape
      refine ⟨_, hshape, ?_, ?_, ?_, ?_⟩
      · show ((updateUser (updateUser db.users r.user_id _) r.sender_id
          _).find? (fun x => x.id == r.sender_id)).map User.direct_income = _
        rw [find?_creditDirect, find?_activateUser]
        unfold findUser at hs
        rw [hs]
        simp [hsid, hne]
      · show ((updateUser (updateUser db.users r.user_id _) r.sender_id
          _).find? (fun x => x.id == r.sender_id)).map User.balance = _
        rw [find?_creditDirect, find?_activateUser]
        unfold findUser at hs
        rw [hs]
        simp [hsid, hne]
      · simp [List.filter_append]
      · intro gid' g hgid hgu
        cases hgid
        rw [hg] at hgu
        cases hgu
    | some g0 =>
      simp only [hgr, hg] at hshape
      have hgid0 : g0.id = gid := findUser_id hg
      have hD : applyWrites db
          ([markRequestApproved r.id, activateUser r.user_id Plan.knowic]
            ++ ([creditDirect r.sender_id (PLAN_PRICING Plan.knowic).direct,
                appendTx r.sender_id .direct
                  (PLAN_PRICING Plan.knowic).direct now]
              ++ [creditPassive gid (PLAN_PRICING Plan.knowic).passive,
                  appendTx gid .passive
                    (PLAN_PRICING Plan.knowic).passive now])) =
          { db with
            requests := db.requests.map (fun q =>
              if q.id = r.id then { q with status := ReqStatus.approved }
              else q),
            users := updateUser
              (updateUser
                (updateUser db.users r.user_id (fun x =>
                  { x with status := UserStatus.active,
                           plan := some Plan.knowic }))
                r.sender_id (fun x =>
                  { x with direct_income := x.direct_income + 16,
                           balance := x.balance + 16 }))
              gid (fun x =>
                { x with passive_income := x.passive_income + 2,
                         balance := x.balance + 2 }),
            transactions := db.transactions ++
              [⟨r.sender_id, TxType.direct, 16, now⟩,
               ⟨gid, TxType.passive, 2, now⟩] } := by
        simp [applyWrites, markRequestApproved, activateUser, creditDirect,
          creditPassive, appendTx, PLAN_PRICING]
      rw [hD] at hshape
      refine ⟨_, hshape, ?_, ?_, ?_, ?_⟩
      · show ((updateUser (updateUser (updateUser db.users r.user_id _)
          r.sender_id _) gid _).find?
            (fun x => x.id == r.sender_id)).map User.direct_income = _
        rw [find?_creditPassive, find?_creditDirect, find?_activateUser]
        unfold findUser at hs
        rw [hs]
        simp [hsid, hne, hgs]
      · show ((updateUser (updateUser (updateUser db.users r.user_id _)
          r.sender_id _) gid _).find?
            (fun x => x.id == r.sender_id)).map User.balance = _
        rw [find?_creditPassive, find?_creditDirect, find?_activateUser]
        unfold findUser at hs
        rw [hs]
        simp [hsid, hne, hgs]
      · simp [List.filter_append, Ne.symm hgs]
      · intro gid' g hgid hgu
        cases hgid
        rw [hg] at hgu
        cases hgu
        refine ⟨?_, ?_, ?_⟩
        · show ((updateUser (updateUser (updateUser db.users r.user_id _)
            r.sender_id _) gid _).find?
              (fun x => x.id == gid)).map User.passive_income = _
          rw [find?_creditPassive, find?_creditDirect, find?_activateUser]
          unfold findUser at hg
          rw [hg]
          have h3 : ¬ (gid = r.sender_id) := fun h => hgs h.symm
          simp only [Option.map_some']
          by_cases hgu0 : g0.id = r.user_id
          · rw [if_pos hgu0]; simp [hgid0, h3]
          · rw [if_neg hgu0]; simp [hgid0, h3]
        · show ((updateUser (updateUser (updateUser db.users r.user_id _)
            r.sender_id _) gid _).find?
              (fun x => x.id == gid)).map User.balance = _
          rw [find?_creditPassive, find?_creditDirect, find?_activateUser]
          unfold findUser at hg
          rw [hg]
          have h3 : ¬ (gid = r.sender_id) := fun h => hgs h.symm
          simp only [Option.map_some']
          by_cases hgu0 : g0.id = r.user_id
          · rw [if_pos hgu0]; simp [hgid0, h3]
          · rw [if_neg hgu0]; simp [hgid0, h3]
        · simp [List.filter_append, hgs]

/-- Chain G (3) ← S (1, tier-3) ← U (2, pending); a pending `knowic`
activation request for U submitted by S. -/
def exC3db : DB :=
  ⟨[⟨1, 100, 5, 0, some 3, .active, some .masteric⟩,
    ⟨2, 0, 0, 0, some 1, .pending, none⟩,
    ⟨3, 50, 0, 8, none, .active, some .masteric⟩],
   [⟨4, 2, 1, .knowic, .pending⟩], [], [], [⟨1, .direct, 5, 0⟩]⟩

/-- The database after approving request 4 of `exC3db`. -/
def exC3db2 : DB :=
  match approveRequest exC3db 4 7 with
  | .ok d => d
  | .error _ => exC3db

/-- Witness for C3: approving U's tier-1 activation pays S exactly 16 of
direct income and balance and G exactly 2 of passive income and balance. -/
theorem claim_C3_witness :
    approveRequest exC3db 4 7 = .ok exC3db2 ∧
    (findUser exC3db2 1).map User.direct_income = some (5 + 16) ∧
    (findUser exC3db2 1).map User.balance = some (100 + 16) ∧
    (findUser exC3db2 3).map User.passive_income = some (8 + 2) ∧
    (findUser exC3db2 3).map User.balance = some (50 + 2) := by
  obtain ⟨db2, heq, h1, h2, _, h4⟩ := claim_C3_tier1_commission exC3db 4 7
    ⟨4, 2, 1, .knowic, .pending⟩ ⟨2, 0, 0, 0, some 1, .pending, none⟩
    ⟨1, 100, 5, 0, some 3, .active, some .masteric⟩
    (by decide) (by decide) (by decide) (by decide) (by decide) (by decide)
    (by decide) (by decide)
  have hok : approveRequest exC3db 4 7 = .ok exC3db2 := by decide
  have hdb : db2 = exC3db2 := by
    rw [heq] at hok
    exact Except.ok.inj hok
  subst hdb
  obtain ⟨p1, p2, _⟩ := h4 3 ⟨3, 50, 0, 8, none, .active, some .masteric⟩
    (by decide) (by decide)
  exact ⟨hok, h1, h2, p1, p2⟩

/-! ### Frame and preservation lemmas for the reconciliation invariant -/

/-- Appending one ledger entry shifts one user's signed sum. -/
theorem userLedgerSum_append (txs : List Transaction) (t : Transaction)
    (uid : Nat) :
    userLedgerSum (txs ++ [t]) uid =
      userLedgerSum txs uid +
        (if t.user_id = uid then signedAmount t else 0) := by
  unfold userLedgerSum
  rw [List.filter_append]
  by_cases h : t.user_id = uid
  · simp [h]
  · simp [h]

/-- The invariant only reads `users` and `transactions`. -/
theorem balanceInv_ext {db db' : DB} (hu : db'.users = db.users)
    (ht : db'.transactions = db.transactions) (h : BalanceInv db) :
    BalanceInv db' := by
  intro v hv
  rw [hu] at hv
  rw [ht]
  exact h v hv

/-- A user update that keeps `id` and `balance` keeps the invariant. -/
theorem balanceInv_update_neutral (db : DB) (uid : Nat) (f : User → User)
    (hid : ∀ x, (f x).id = x.id) (hbal : ∀ x, (f x).balance = x.balance)
    (h : BalanceInv db) :
    BalanceInv { db with users := updateUser db.users uid f } := by
  intro v hv
  obtain ⟨x, hx, rfl⟩ := List.mem_map.mp hv
  by_cases hxid : x.id = uid
  · rw [if_pos hxid]
    show (f x).balance = userLedgerSum db.transactions (f x).id
    rw [hbal, hid]
    exact h x hx
  · rw [if_neg hxid]
    exact h x hx

/-- Crediting a user's balance by `a` while appending a ledger entry whose
signed amount is `a` for the same user keeps the invariant. -/
theorem balanceInv_credit_append (db : DB) (uid : Nat) (a : Int)
    (k : TxType) (now : Int) (f : User → User)
    (hid : ∀ x, (f x).id = x.id)
    (hbal : ∀ x, (f x).balance = x.balance + a)
    (hsig : signedAmount ⟨uid, k, a, now⟩ = a)
    (h : BalanceInv db) :
    BalanceInv (appendTx uid k a now
      { db with users := updateUser db.users uid f }) := by
  intro v hv
  obtain ⟨x, hx, rfl⟩ := List.mem_map.mp hv
  show (if x.id = uid then f x else x).balance =
    userLedgerSum (db.transactions ++ [⟨uid, k, a, now⟩])
      (if x.id = uid then f x else x).id
  rw [userLedgerSum_append]
  by_cases hxid : x.id = uid
  · rw [if_pos hxid]
    rw [hbal, hid, hxid]
    simp only [if_pos rfl, hsig]
    rw [h x hx, hxid]
    simp
  · rw [if_neg hxid]
    have hcond : ¬ ((⟨uid, k, a, now⟩ : Transaction).user_id = x.id) :=
      fun he => hxid he.symm
    rw [if_neg hcond]
    simpa using h x hx

/-- The withdrawal-approval write pair (debit `passive_income`, append a
`withdrawal` entry) leaves every account's balance above its signed ledger
sum by the withdrawn amount for the debited account, exactly because the
`balance` field is not written. -/
theorem balanceInv_withdraw_deviation (db : DB) (uid : Nat) (a : Int)
    (now : Int) (h : BalanceInv db) :
    ∀ v ∈ (appendTx uid .withdrawal a now
        (debitPassiveIncome uid a db)).users,
      v.balance = userLedgerSum (appendTx uid .withdrawal a now
          (debitPassiveIncome uid a db)).transactions v.id +
        (if v.id = uid then a else 0) := by
  intro v hv
  obtain ⟨x, hx, rfl⟩ := List.mem_map.mp hv
  show (if x.id = uid then
      { x with passive_income := x.passive_income - a } else x).balance =
    userLedgerSum (db.transactions ++ [⟨uid, TxType.withdrawal, a, now⟩])
      (if x.id = uid then
        { x with passive_income := x.passive_income - a } else x).id +
      (if (if x.id = uid then
        { x with passive_income := x.passive_income - a } else x).id = uid
       then a else 0)
  rw [userLedgerSum_append]
  by_cases hxid : x.id = uid
  · rw [if_pos hxid]
    have hb := h x hx
    simp only [hxid, if_pos rfl]
    show x.balance = userLedgerSum db.transactions uid +
      signedAmount ⟨uid, TxType.withdrawal, a, now⟩ + a
    rw [← hxid, hb]
    show userLedgerSum db.transactions x.id =
      userLedgerSum db.transactions x.id + -a + a
    omega
  · rw [if_neg hxid]
    have hcond : ¬ ((⟨uid, TxType.withdrawal, a, now⟩ :
        Transaction).user_id = x.id) := fun he => hxid he.symm
    rw [if_neg hcond, if_neg hxid]
    simpa using h x hx

/-- A successful `createRequest` changes neither users nor ledger. -/
theorem createRequest_ok_frame {db : DB} {uid sid : Nat} {p : Plan}
    {hf : Bool} {nid : Nat} {db' : DB}
    (h : createRequest db uid sid p hf nid = .ok db') :
    db'.users = db.users ∧ db'.transactions = db.transactions := by
  unfold createRequest at h
  repeat' split at h
  all_goals try cases h
  all_goals exact ⟨rfl, rfl⟩

/-- A successful `rejectRequest` changes neither users nor ledger. -/
theorem rejectRequest_ok_frame {db : DB} {rid : Nat} {db' : DB}
    (h : rejectRequest db rid = .ok db') :
    db'.users = db.users ∧ db'.transactions = db.transactions := by
  unfold rejectRequest at h
  split at h
  · cases h
  · split at h
    · cases h
    · cases h
      exact ⟨rfl, rfl⟩

/-- A successful `createWithdrawal` changes neither users nor ledger. -/
theorem createWithdrawal_ok_frame {db : DB} {uid : Nat}
    {bn ban : Option String} {amt : Option Int} {nid : Nat} {db' : DB}
    (h : createWithdrawal db uid bn ban amt nid = .ok db') :
    db'.users = db.users ∧ db'.transactions = db.transactions := by
  unfold createWithdrawal at h
  split at h
  · cases h
  · split at h
    · split at h
      · cases h
      · split at h
        · cases h
        · split at h
          · cases h
          · split at h
            · cases h
            · cases h
              exact ⟨rfl, rfl⟩
    · cases h

/-- A successful `rejectWithdrawal` changes neither users nor ledger. -/
theorem rejectWithdrawal_ok_frame {db : DB} {wid : Nat} {db' : DB}
    (h : rejectWithdrawal db wid = .ok db') :
    db'.users = db.users ∧ db'.transactions = db.transactions := by
  unfold rejectWithdrawal at h
  split at h
  · cases h
  · split at h
    · cases h
    · cases h
      exact ⟨rfl, rfl⟩

theorem activateUser_eq (uid : Nat) (p : Plan) (db : DB) :
    activateUser uid p db = { db with users := updateUser db.users uid (fun x => { x with status := UserStatus.active, plan := some p }) } :=
  rfl

theorem creditDirect_eq (uid : Nat) (a : Int) (db : DB) :
    creditDirect uid a db = { db with users := updateUser db.users uid (fun x => { x with direct_income := x.direct_income + a, balance := x.balance + a }) } :=
  rfl

theorem creditPassive_eq (uid : Nat) (a : Int) (db : DB) :
    creditPassive uid a db = { db with users := updateUser db.users uid (fun x => { x with passive_income := x.passive_income + a, balance := x.balance + a }) } :=
  rfl

theorem setPlanAndReferrer_eq (uid : Nat) (p : Plan) (ref : Nat)
    (db : DB) :
    setPlanAndReferrer uid p ref db = { db with users := updateUser db.users uid (fun x => { x with plan := some p, referral_of := some ref }) } :=
  rfl

/-- A successful activation approval keeps the reconciliation invariant:
every credited balance comes with a ledger entry of the same signed
amount. -/
theorem approveRequest_preserves {db : DB} {rid : Nat} {now : Int}
    {db' : DB} (hok : approveRequest db rid now = .ok db')
    (h : BalanceInv db) : BalanceInv db' := by
  obtain ⟨r, u, hc, rfl⟩ := approveRequest_ok_shape hok
  have h1 : BalanceInv (markRequestApproved r.id db) :=
    balanceInv_ext rfl rfl h
  have h2 : BalanceInv
      (activateUser r.user_id r.plan (markRequestApproved r.id db)) := by
    rw [activateUser_eq]
    exact balanceInv_update_neutral _ _ _ (fun _ => rfl) (fun _ => rfl) h1
  cases href : u.referral_of with
  | none =>
    simp only [approveRequestWriteList, href, List.append_nil]
    exact h2
  | some ref =>
    simp only [approveRequestWriteList, href]
    by_cases hne : ref ≠ r.user_id
    · rw [if_pos hne]
      cases hfs : findUser db r.sender_id with
      | none => simp only [hfs, List.append_nil]; exact h2
      | some sender =>
        simp only [hfs]
        have h3 : BalanceInv (appendTx r.sender_id .direct
            (PLAN_PRICING r.plan).direct now
            (creditDirect r.sender_id (PLAN_PRICING r.plan).direct
              (activateUser r.user_id r.plan
                (markRequestApproved r.id db)))) := by
          rw [creditDirect_eq]
          exact balanceInv_credit_append _ _ _ _ _ _ (fun _ => rfl)
            (fun _ => rfl) rfl h2
        cases hg0 : sender.referral_of with
        | none => simp only [hg0, List.append_nil]; exact h3
        | some g =>
          cases hg : findUser db g with
          | none => simp only [hg0, hg, List.append_nil]; exact h3
          | some _ =>
            simp only [hg0, hg]
            show BalanceInv (appendTx g .passive
              (PLAN_PRICING r.plan).passive now
              (creditPassive g (PLAN_PRICING r.plan).passive
                (appendTx r.sender_id .direct
                  (PLAN_PRICING r.plan).direct now
                  (creditDirect r.sender_id (PLAN_PRICING r.plan).direct
                    (activateUser r.user_id r.plan
                      (markRequestApproved r.id db))))))
            rw [creditPassive_eq]
            exact balanceInv_credit_append _ _ _ _ _ _ (fun _ => rfl)
              (fun _ => rfl) rfl h3
    · rw [if_neg hne]
      exact h2

/-- Unpacking a successful `approveUpgradeRequest`. -/
theorem approveUpgradeRequest_ok_shape {db : DB} {rid : Nat} {now : Int}
    {db' : DB} (h : approveUpgradeRequest db rid now = .ok db') :
    ∃ r nr, approveUpgradeRequestCheck db rid = .ok (r, nr) ∧
      db' = applyWrites db (approveUpgradeRequestWriteList db r nr now) := by
  unfold approveUpgradeRequest at h
  cases hc : approveUpgradeRequestCheck db rid with
  | error e => rw [hc] at h; cases h
  | ok p =>
    obtain ⟨r, nr⟩ := p
    rw [hc] at h
    simp only [Except.ok.injEq] at h
    exact ⟨r, nr, rfl, h.symm⟩

/-- A successful upgrade approval keeps the reconciliation invariant. -/
theorem approveUpgradeRequest_preserves {db : DB} {rid : Nat} {now : Int}
    {db' : DB} (hok : approveUpgradeRequest db rid now = .ok db')
    (h : BalanceInv db) : BalanceInv db' := by
  obtain ⟨r, nr, hc, rfl⟩ := approveUpgradeRequest_ok_shape hok
  have h1 : BalanceInv
      (setPlanAndReferrer r.user_id r.new_plan r.new_referrer_id db) := by
    rw [setPlanAndReferrer_eq]
    exact balanceInv_update_neutral _ _ _ (fun _ => rfl) (fun _ => rfl) h
  have h2 : BalanceInv (appendTx r.new_referrer_id .direct
      (PLAN_PRICING r.new_plan).direct now
      (creditDirect r.new_referrer_id (PLAN_PRICING r.new_plan).direct
        (setPlanAndReferrer r.user_id r.new_plan r.new_referrer_id db))) := by
    rw [creditDirect_eq]
    exact balanceInv_credit_append _ _ _ _ _ _ (fun _ => rfl)
      (fun _ => rfl) rfl h1
  cases hgr : nr.referral_of with
  | none =>
    simp only [approveUpgradeRequestWriteList, hgr, List.append_nil]
    exact balanceInv_ext rfl rfl h2
  | some g =>
    simp only [approveUpgradeRequestWriteList, hgr]
    cases hg : findUser db g with
    | none =>
      simp only [hg, List.append_nil]
      exact balanceInv_ext rfl rfl h2
    | some _ =>
      simp only [hg]
      by_cases hd : ¬r.discounted = true
      · rw [if_pos hd]
        have h3 : BalanceInv (appendTx g .passive
            (PLAN_PRICING r.new_plan).passive now
            (creditPassive g (PLAN_PRICING r.new_plan).passive
              (appendTx r.new_referrer_id .direct
                (PLAN_PRICING r.new_plan).direct now
                (creditDirect r.new_referrer_id
                  (PLAN_PRICING r.new_plan).direct
                  (setPlanAndReferrer r.user_id r.new_plan
                    r.new_referrer_id db))))) := by
          rw [creditPassive_eq]
          exact balanceInv_credit_append _ _ _ _ _ _ (fun _ => rfl)
            (fun _ => rfl) rfl h2
        exact balanceInv_ext rfl rfl h3
      · rw [if_neg hd]
        simp only [List.append_nil]
        exact balanceInv_ext rfl rfl h2

/-- Unpacking a successful `approveWithdrawalCheck`. -/
theorem approveWithdrawalCheck_ok {db : DB} {wid : Nat} {w : Withdraw}
    {u : User} (h : approveWithdrawalCheck db wid = .ok (w, u)) :
    findWithdraw db wid = some w := by
  unfold approveWithdrawalCheck at h
  cases hf : findWithdraw db wid with
  | none => rw [hf] at h; cases h
  | some w0 =>
    simp only [hf] at h
    split at h
    · cases h
    · cases hu : findUser db w0.user_id with
      | none => rw [hu] at h; simp at h
      | some user =>
        simp only [hu] at h
        split at h
        · cases h
        · simp only [Except.ok.injEq, Prod.mk.injEq] at h
          rw [h.1]

/-- Unpacking a successful `approveWithdrawal`. -/
theorem approveWithdrawal_ok_shape {db : DB} {wid : Nat} {now : Int}
    {db' : DB} (h : approveWithdrawal db wid now = .ok db') :
    ∃ w u, approveWithdrawalCheck db wid = .ok (w, u) ∧
      db' = appendTx w.user_id .withdrawal w.amount now
        (debitPassiveIncome w.user_id w.amount
          (markWithdrawApproved w.id db)) := by
  unfold approveWithdrawal at h
  cases hc : approveWithdrawalCheck db wid with
  | error e => rw [hc] at h; cases h
  | ok p =>
    obtain ⟨w, u⟩ := p
    rw [hc] at h
    simp only [commit_foldl, Except.ok.injEq] at h
    exact ⟨w, u, rfl, h.symm⟩

/-- A user whose balance 50 matches its single passive ledger entry, with
a pending withdrawal of 30. -/
def exC1db : DB :=
  ⟨[⟨1, 50, 0, 50, none, .active, some .knowic⟩],
   [], [⟨2, 1, "b", "a", 30, .pending⟩], [], [⟨1, .passive, 50, 0⟩]⟩

/-- Claim C1, as stated, is false: the reconciliation invariant holds on
`exC1db`, approving the pending withdrawal succeeds (an engine operation),
and the invariant is false afterwards — the `withdrawal` ledger entry is
appended and `passive_income` is debited but the cached `balance` field is
not, so `balance` no longer equals the signed ledger sum. -/
theorem claim_C1_counterexample :
    balanceInvB exC1db = true ∧
    (approveWithdrawal exC1db 2 9).map balanceInvB =
      .ok false := by decide

/-- Claim C1 (amended): after every engine operation other than withdrawal
approval — activation-request creation, approval and rejection, withdrawal
creation and rejection, and upgrade approval — every account's cached
`balance` equals the signed sum of its ledger entries, provided it did
before; withdrawal approval instead leaves the debited account's `balance`
above its signed ledger sum by exactly the withdrawn amount (the code
debits `passive_income` and appends the `withdrawal` entry without
touching `balance`), while every other account still reconciles
exactly. -/
theorem claim_C1_amended (db : DB) (h : BalanceInv db) :
    (∀ uid sid p hf nid db',
      createRequest db uid sid p hf nid = .ok db' → BalanceInv db') ∧
    (∀ rid now db',
      approveRequest db rid now = .ok db' → BalanceInv db') ∧
    (∀ rid db', rejectRequest db rid = .ok db' → BalanceInv db') ∧
    (∀ uid bn ban amt nid db',
      createWithdrawal db uid bn ban amt nid = .ok db' →
        BalanceInv db') ∧
    (∀ wid db', rejectWithdrawal db wid = .ok db' → BalanceInv db') ∧
    (∀ rid now db',
      approveUpgradeRequest db rid now = .ok db' → BalanceInv db') ∧
    (∀ wid now db' w, findWithdraw db wid = some w →
      approveWithdrawal db wid now = .ok db' →
      ∀ v ∈ db'.users,
        v.balance = userLedgerSum db'.transactions v.id +
          (if v.id = w.user_id then w.amount else 0)) := by
  refine ⟨?_, ?_, ?_, ?_, ?_, ?_, ?_⟩
  · intro uid sid p hf nid db' hok
    obtain ⟨hu, ht⟩ := createRequest_ok_frame hok
    exact balanceInv_ext hu ht h
  · intro rid now db' hok
    exact approveRequest_preserves hok h
  · intro rid db' hok
    obtain ⟨hu, ht⟩ := rejectRequest_ok_frame hok
    exact balanceInv_ext hu ht h
  · intro uid bn ban amt nid db' hok
    obtain ⟨hu, ht⟩ := createWithdrawal_ok_frame hok
    exact balanceInv_ext hu ht h
  · intro wid db' hok
    obtain ⟨hu, ht⟩ := rejectWithdrawal_ok_frame hok
    exact balanceInv_ext hu ht h
  · intro rid now db' hok
    exact approveUpgradeRequest_preserves hok h
  · intro wid now db' w hw hok
    obtain ⟨w', u', hc, rfl⟩ := approveWithdrawal_ok_shape hok
    have hw' : findWithdraw db wid = some w' :=
      approveWithdrawalCheck_ok hc
    have hww : w = w' := by
      rw [hw] at hw'
      exact Option.some.inj hw'
    subst hww
    exact balanceInv_withdraw_deviation (markWithdrawApproved w.id db)
      w.user_id w.amount now (balanceInv_ext rfl rfl h)

/-- `exC1db` after the withdrawal approval. -/
def exC1post : DB :=
  match approveWithdrawal exC1db 2 9 with
  | .ok d => d
  | .error _ => exC1db

/-- Witness for the amended C1 at `exC1db`: the approval succeeds and the
debited account's balance (still 50) sits exactly 30 above its signed
ledger sum. -/
theorem claim_C1_witness :
    balanceInvB exC1db = true ∧
    approveWithdrawal exC1db 2 9 = .ok exC1post ∧
    (50 : Int) = userLedgerSum exC1post.transactions 1 + 30 := by
  have hdev := (claim_C1_amended exC1db
      ((balanceInvB_iff exC1db).mp (by decide))).2.2.2.2.2.2
    2 9 exC1post ⟨2, 1, "b", "a", 30, .pending⟩ (by decide) (by decide)
  have h3 := hdev ⟨1, 50, 0, 20, none, .active, some .knowic⟩ (by decide)
  refine ⟨by decide, by decide, ?_⟩
  simpa using h3

/-- New referrer 1 (tier-2) and subject 2 (tier-1) with a `user_approved`
upgrade request of 2 to tier-2 sponsored by 1. -/
def exC2db : DB :=
  ⟨[⟨1, 0, 0, 0, none, .active, some .learnic⟩,
    ⟨2, 0, 0, 0, some 1, .active, some .knowic⟩],
   [], [], [⟨3, 2, .knowic, .learnic, 1, false, .user_approved⟩], []⟩

/-- Claim C2, as stated, is false: `approveUpgradeRequest` issues its four
document writes with no session, so a failure after the second write
(the new referrer's credit) persists a partial state — the referrer's
balance is already 40 while no ledger entry and no request-status change
exist, and the database differs from the pre-call one. -/
theorem claim_C2_counterexample :
    (approveUpgradeRequestWrites exC2db 3 0).length = 4 ∧
    bareCrashAfter exC2db (approveUpgradeRequestWrites exC2db 3 0) 2 ≠
      exC2db ∧
    (bareCrashAfter exC2db
      (approveUpgradeRequestWrites exC2db 3 0) 2).transactions = [] ∧
    (findUser (bareCrashAfter exC2db
      (approveUpgradeRequestWrites exC2db 3 0) 2) 1).map User.balance =
      some 40 ∧
    (findUpgradeRequest (bareCrashAfter exC2db
      (approveUpgradeRequestWrites exC2db 3 0) 2) 3).map
        UpgradeRequest.status = some .user_approved := by
  decide

/-- Claim C2 (amended): activation-request approval and withdrawal
approval run every write inside a mongoose session, so a failure after
any number of their writes leaves the durable database exactly as it was
(abort, no partial commit); upgrade-request approval issues its writes
with no session, so a failure between writes persists exactly the prefix
of writes already made. -/
theorem claim_C2_amended (db : DB) (k : Nat) :
    (∀ rid now,
      sessionCrashAfter db (approveRequestWrites db rid now) k = db) ∧
    (∀ wid now,
      sessionCrashAfter db (approveWithdrawalWrites db wid now) k = db) ∧
    (∀ rid now,
      bareCrashAfter db (approveUpgradeRequestWrites db rid now) k =
        applyWrites db
          ((approveUpgradeRequestWrites db rid now).take k)) := by
  refine ⟨?_, ?_, ?_⟩
  · intro rid now
    exact sessionCrashAfter_eq _ _ _
  · intro wid now
    exact sessionCrashAfter_eq _ _ _
  · intro rid now
    rfl

/-- Claim C7: every snapshot row the daily full-recompute run stores for
the completed window (anchor date `today - 1`) carries exactly the signed
sum of that user's ledger entries inside the window `[today-1, today)` —
direct and passive add, withdrawal subtracts. -/
theorem claim_C7_snapshot_reconciliation (stats : List Stat)
    (txs : List Transaction) (today : Int) (st : Stat)
    (hmem : st ∈ calculateDailyStats stats txs today)
    (hdate : st.date = today - 1) :
    st.total = windowSum txs (today - 1) today st.userId := by
  unfold calculateDailyStats at hmem
  rw [List.mem_append] at hmem
  rcases hmem with hold | hnew
  · have hq := List.of_mem_filter hold
    simp [hdate] at hq
  · obtain ⟨it, hin, rfl⟩ := List.mem_map.mp hnew
    unfold groupTotals at hin
    obtain ⟨u0, _, heq⟩ := List.mem_map.mp hin
    cases heq
    rfl

/-- The ledger of the scenario: entries [direct +16, withdrawal 5] on day
5 for account 7. -/
def exC7txs : List Transaction :=
  [⟨7, .direct, 16, 5⟩, ⟨7, .withdrawal, 5, 5⟩]

/-- Witness for C7: the run over the window [5, 6) stores snapshot total
11 = 16 - 5 for account 7, matching the signed window sum. -/
theorem claim_C7_witness :
    calculateDailyStats [] exC7txs 6 = [⟨7, 11, 5⟩] ∧
    (11 : Int) = windowSum exC7txs (6 - 1) 6 7 := by
  constructor
  · decide
  · exact claim_C7_snapshot_reconciliation [] exC7txs 6 ⟨7, 11, 5⟩
      (by decide) (by decide)

/-- Claim C8: with an unchanged ledger, running the daily full-recompute
aggregation twice over the same completed window produces exactly the
stat store of a single run — the run deletes the window's rows before
inserting the freshly computed ones. -/
theorem claim_C8_idempotent (stats : List Stat) (txs : List Transaction)
    (today : Int) :
    calculateDailyStats (calculateDailyStats stats txs today) txs today =
      calculateDailyStats stats txs today := by
  unfold calculateDailyStats
  dsimp only
  rw [List.filter_append, List.filter_append]
  have h1 : List.filter (fun st => !decide (st.date < today - 1 - 7))
      (List.filter (fun st => !decide (st.date = today - 1))
        (List.filter (fun st => !decide (st.date < today - 1 - 7))
          stats)) =
      List.filter (fun st => !decide (st.date = today - 1))
        (List.filter (fun st => !decide (st.date < today - 1 - 7))
          stats) := by
    apply List.filter_eq_self.mpr
    intro a ha
    have h4 : a ∈ List.filter
        (fun st : Stat => !decide (st.date < today - 1 - 7)) stats :=
      List.mem_of_mem_filter ha
    have h5 := List.of_mem_filter h4
    exact h5
  have h2 : List.filter (fun st => !decide (st.date = today - 1))
      (List.filter (fun st => !decide (st.date = today - 1))
        (List.filter (fun st => !decide (st.date < today - 1 - 7))
          stats)) =
      List.filter (fun st => !decide (st.date = today - 1))
        (List.filter (fun st => !decide (st.date < today - 1 - 7))
          stats) := by
    apply List.filter_eq_self.mpr
    intro a ha
    have h5 := List.of_mem_filter ha
    exact h5
  have h3 : List.filter (fun st => !decide (st.date = today - 1))
      (List.filter (fun st => !decide (st.date < today - 1 - 7))
        ((groupTotals txs (today - 1) today).map
          (fun it => (⟨it.1, it.2, today - 1⟩ : Stat)))) = [] := by
    apply List.filter_eq_nil_iff.mpr
    intro a ha
    have hmem := List.mem_of_mem_filter ha
    obtain ⟨it, _, rfl⟩ := List.mem_map.mp hmem
    simp
  rw [h1, h2, h3, List.append_nil]

/-- What a row of the post-run daily store can be: it survived the prune
(not older than seven days before the anchor) and is either a pre-run row
or a fresh row anchored at yesterday. -/
theorem calculateDailyStats_mem (stats : List Stat)
    (txs : List Transaction) (today : Int) (st : Stat)
    (hst : st ∈ calculateDailyStats stats txs today) :
    ¬ st.date < today - 1 - 7 ∧ (st ∈ stats ∨ st.date = today - 1) := by
  unfold calculateDailyStats at hst
  rw [List.mem_append] at hst
  rcases hst with h | h
  · have h4 : st ∈ List.filter
        (fun x : Stat => !decide (x.date < today - 1 - 7)) stats :=
      List.mem_of_mem_filter h
    have h5 := List.of_mem_filter h4
    exact ⟨by simpa using h5, Or.inl (List.mem_of_mem_filter h4)⟩
  · obtain ⟨it, _, rfl⟩ := List.mem_map.mp h
    refine ⟨?_, Or.inr rfl⟩
    show ¬ (today - 1 < today - 1 - 7)
    omega

/-- Weekly analogue of `calculateDailyStats_mem`. -/
theorem calculateWeeklyStats_mem (stats : List Stat)
    (txs : List Transaction) (today : Int) (st : Stat)
    (hst : st ∈ calculateWeeklyStats stats txs today) :
    ¬ st.date < today - 7 - 28 ∧ (st ∈ stats ∨ st.date = today - 7) := by
  unfold calculateWeeklyStats at hst
  rw [List.mem_append] at hst
  rcases hst with h | h
  · have h4 : st ∈ List.filter
        (fun x : Stat => !decide (x.date < today - 7 - 28)) stats :=
      List.mem_of_mem_filter h
    have h5 := List.of_mem_filter h4
    exact ⟨by simpa using h5, Or.inl (List.mem_of_mem_filter h4)⟩
  · obtain ⟨it, _, rfl⟩ := List.mem_map.mp h
    refine ⟨?_, Or.inr rfl⟩
    show ¬ (today - 7 < today - 7 - 28)
    omega

/-- Monthly analogue of `calculateDailyStats_mem`; the fresh rows carry
the anchor `lm` (the month boundaries are parameters here, so the
freshly inserted anchor is reported separately). -/
theorem calculateMonthlyStats_mem (stats : List Stat)
    (txs : List Transaction) (lm cm tm : Int) (st : Stat)
    (hst : st ∈ calculateMonthlyStats stats txs lm cm tm) :
    (¬ st.date < tm ∨ st.date = lm) ∧ (st ∈ stats ∨ st.date = lm) := by
  unfold calculateMonthlyStats at hst
  rw [List.mem_append] at hst
  rcases hst with h | h
  · have h4 : st ∈ List.filter (fun x : Stat => !decide (x.date < tm))
        stats := List.mem_of_mem_filter h
    have h5 := List.of_mem_filter h4
    exact ⟨Or.inl (by simpa using h5),
      Or.inl (List.mem_of_mem_filter h4)⟩
  · obtain ⟨it, _, rfl⟩ := List.mem_map.mp h
    exact ⟨Or.inr rfl, Or.inr rfl⟩

/-- Seven daily snapshots with anchors 2..8 and one transaction on day 9. -/
def exC9stats : List Stat :=
  [⟨1, 1, 2⟩, ⟨1, 1, 3⟩, ⟨1, 1, 4⟩, ⟨1, 1, 5⟩, ⟨1, 1, 6⟩, ⟨1, 1, 7⟩,
   ⟨1, 1, 8⟩]

def exC9txs : List Transaction :=
  [⟨1, .direct, 5, 9⟩]

/-- Claim C9, as stated, is false: a daily run on day 10 (anchor 9,
pruning horizon 2 = 9 - 7) keeps the snapshot anchored exactly at the
horizon, so eight distinct daily anchor dates remain stored, not seven. -/
theorem claim_C9_counterexample :
    ((calculateDailyStats exC9stats exC9txs 10).map Stat.date).dedup.length
      = 8 ∧
    (⟨1, 1, 2⟩ : Stat) ∈ calculateDailyStats exC9stats exC9txs 10 := by
  decide

/-- Claim C9 (amended): each run prunes exactly the snapshots strictly
older than its horizon — anchor minus 7 days (daily), minus 28 days
(weekly), twelve months before the last month (monthly) — and keeps every
other row not replaced by the fresh anchor; because the horizon date
itself survives, up to 8 daily and 5 weekly anchor dates remain after a
run (and likewise 13 monthly anchors), not 7/4/12. -/
theorem claim_C9_amended (stats : List Stat) (txs : List Transaction)
    (today lm cm tm : Int) :
    (∀ st ∈ calculateDailyStats stats txs today,
      ¬ st.date < today - 1 - 7) ∧
    (∀ st ∈ stats, ¬ st.date < today - 1 - 7 → st.date ≠ today - 1 →
      st ∈ calculateDailyStats stats txs today) ∧
    ((∀ st ∈ stats, st.date ≤ today - 1) →
      ((calculateDailyStats stats txs today).map
        Stat.date).dedup.length ≤ 8) ∧
    (∀ st ∈ calculateWeeklyStats stats txs today,
      ¬ st.date < today - 7 - 28) ∧
    ((∀ st ∈ stats, st.date ≤ today - 7 ∧
        (7 : Int) ∣ (today - 7 - st.date)) →
      ((calculateWeeklyStats stats txs today).map
        Stat.date).dedup.length ≤ 5) ∧
    (tm ≤ lm →
      ∀ st ∈ calculateMonthlyStats stats txs lm cm tm,
        ¬ st.date < tm) ∧
    (∀ st ∈ stats, ¬ st.date < tm → st.date ≠ lm →
      st ∈ calculateMonthlyStats stats txs lm cm tm) := by
  refine ⟨?_, ?_, ?_, ?_, ?_, ?_, ?_⟩
  · intro st hst
    exact (calculateDailyStats_mem stats txs today st hst).1
  · intro st hst hp hq
    unfold calculateDailyStats
    rw [List.mem_append]
    left
    exact List.mem_filter.mpr
      ⟨List.mem_filter.mpr ⟨hst, by simpa using hp⟩, by simpa using hq⟩
  · intro hb
    have hnd := List.nodup_dedup
      ((calculateDailyStats stats txs today).map Stat.date)
    have hsub : ((calculateDailyStats stats txs today).map
        Stat.date).dedup ⊆
        [today - 1, today - 2, today - 3, today - 4, today - 5,
         today - 6, today - 7, today - 8] := by
      intro d hd
      rw [List.mem_dedup] at hd
      obtain ⟨st, hst, rfl⟩ := List.mem_map.mp hd
      obtain ⟨hlo, hup⟩ := calculateDailyStats_mem stats txs today st hst
      have hle : st.date ≤ today - 1 := by
        rcases hup with h | h
        · exact hb st h
        · omega
      simp only [List.mem_cons, List.mem_singleton]
      omega
    have hsp := List.subperm_of_subset hnd hsub
    simpa using hsp.length_le
  · intro st hst
    exact (calculateWeeklyStats_mem stats txs today st hst).1
  · intro hb
    have hnd := List.nodup_dedup
      ((calculateWeeklyStats stats txs today).map Stat.date)
    have hsub : ((calculateWeeklyStats stats txs today).map
        Stat.date).dedup ⊆
        [today - 7, today - 14, today - 21, today - 28, today - 35] := by
      intro d hd
      rw [List.mem_dedup] at hd
      obtain ⟨st, hst, rfl⟩ := List.mem_map.mp hd
      obtain ⟨hlo, hup⟩ := calculateWeeklyStats_mem stats txs today st hst
      simp only [List.mem_cons, List.mem_singleton]
      rcases hup with h | h
      · obtain ⟨hle, hdvd⟩ := hb st h
        omega
      · omega
    have hsp := List.subperm_of_subset hnd hsub
    simpa using hsp.length_le
  · intro htm st hst
    rcases (calculateMonthlyStats_mem stats txs lm cm tm st hst).1 with
      h | h
    · exact h
    · omega
  · intro st hst hp hq
    unfold calculateMonthlyStats
    rw [List.mem_append]
    left
    exact List.mem_filter.mpr
      ⟨List.mem_filter.mpr ⟨hst, by simpa using hp⟩, by simpa using hq⟩

/-- Witness for the amended C9 on the concrete store: the eight remaining
anchors are within the proved bound and the horizon-dated snapshot is
kept. -/
theorem claim_C9_witness :
    ((calculateDailyStats exC9stats exC9txs 10).map
      Stat.date).dedup.length ≤ 8 ∧
    (⟨1, 1, 2⟩ : Stat) ∈ calculateDailyStats exC9stats exC9txs 10 := by
  have h := claim_C9_amended exC9stats exC9txs 10 0 0 0
  exact ⟨h.2.2.1 (by decide),
    h.2.1 ⟨1, 1, 2⟩ (by decide) (by decide) (by decide)⟩

example :
    createWithdrawal
      ⟨[⟨1, 40, 0, 40, none, .active, some .knowic⟩], [], [], [],
        [⟨1, .passive, 40, 0⟩]⟩
      1 (some "b") (some "a") (some 50) 7 =
    .error .insufficientPassiveIncome := by decide

example :
    (approveWithdrawal
      ⟨[⟨1, 40, 0, 40, none, .active, some .knowic⟩],
        [], [⟨5, 1, "b", "a", 30, .pending⟩], [], [⟨1, .passive, 40, 0⟩]⟩
      5 9).map (fun d => d.users) =
    .ok [⟨1, 40, 0, 10, none, .active, some .knowic⟩] := by decide
